import Mathlib

/-!
Shallow embedding of the triangular-arbitrage engine
(`processorNewEngine.js`, `triangularNewEngine.js`, `src/utils/ammCalculator.ts`).

Modelling conventions:
* `Decimal` values (decimal.js, configured with ≥ 40 digits of precision) are
  modelled as exact rationals `ℚ`; a possibly non-finite Decimal (NaN or ±Infinity)
  is modelled as `Option ℚ` with `none` for the non-finite case.
* JavaScript values probed by the shape-tolerant pool parsers are modelled by the
  inductive type `JsVal` (null, undefined, number, string, bigint).  Object-valued
  branches (the final `toDecimal` fallback of `isNumericAtomic`) are not
  represented: the candidate fields are primitives in every source record.
* Atomic amounts cross leg boundaries through `Rat.floor`, exactly as the source
  floors Decimals.
* `Array.prototype.sort` with a consistent comparator is stable (ECMA-262);
  any stable sort yields the same list, so it is embedded as a stable insertion
  sort `jsSortBy`.
-/

/-- Well-known wrapped-SOL mint (constant `WSOL_MINT` in `triangularNewEngine.js`). -/
def WSOL_MINT : String := "So11111111111111111111111111111111111111112"

/-- Well-known USDC mint (constant `USDC_MINT` in `triangularNewEngine.js`). -/
def USDC_MINT : String := "EPjFWdd5AufqSSqeM2qN1xzybapC8G4wEGGkZwyTDt1v"

/-- Primitive JavaScript values handled by the reserve/amount parsers. -/
inductive JsVal where
  | jnull : JsVal
  | jundef : JsVal
  | jnum : Option ℚ → JsVal
  | jstr : String → JsVal
  | jbig : ℤ → JsVal
deriving DecidableEq

/-- Whitespace characters removed by `String.prototype.trim`. -/
def jsWhitespaceChar (c : Char) : Bool :=
  c = ' ' ∨ c = '\t' ∨ c = '\n' ∨ c = '\r'

/-- Model of `String.prototype.trim`: drop whitespace from both ends. -/
def jsTrim (s : String) : String :=
  ⟨((s.toList.dropWhile jsWhitespaceChar).reverse.dropWhile jsWhitespaceChar).reverse⟩

/-- Model of `isDigitString` (`triangularNewEngine.js` line 25): the trimmed string
matches `^[0-9]+$`. -/
def isDigitString (s : String) : Bool :=
  let t := (jsTrim s).toList
  !t.isEmpty && t.all (·.isDigit)

/-- Matcher for the regex `^[0-9]+(\.[0-9]+)?$` used by `isNumericAtomic`. -/
def decShape (l : List Char) : Bool :=
  match l.span (·.isDigit) with
  | (ds, []) => !ds.isEmpty
  | (ds, c :: rest) => c = '.' && !ds.isEmpty && !rest.isEmpty && rest.all (·.isDigit)

/-- Model of `isNumericAtomic` (`triangularNewEngine.js` lines 29–41): accepts
positive bigints, finite positive numbers, and strings that are (after trimming)
digit strings or decimal strings `^[0-9]+(\.[0-9]+)?$`. -/
def isNumericAtomic (v : JsVal) : Bool :=
  match v with
  | .jnull => false
  | .jundef => false
  | .jbig z => 0 < z
  | .jnum none => false
  | .jnum (some q) => 0 < q
  | .jstr s =>
    let t := jsTrim s
    if t.toList.isEmpty then false
    else if isDigitString t then true
    else if decShape t.toList then true
    else false

/-- Value of a list of digit characters, most significant first. -/
def digitsVal (l : List Char) : ℕ :=
  l.foldl (fun acc c => acc * 10 + (c.toNat - '0'.toNat)) 0

/-- Model of the `Decimal` string constructor on the plain shapes the repository
feeds it: optional sign, integer digits, optional fractional digits.  `none`
models a thrown exception (caught by `toDecimal`).  Scientific notation is not
used by any record the claims touch. -/
def parseDecimalStr (s : String) : Option ℚ :=
  let core : List Char → Option ℚ := fun l =>
    match l.span (·.isDigit) with
    | (ds, []) => if ds.isEmpty then none else some (digitsVal ds)
    | (ds, '.' :: rest) =>
      if ds.isEmpty ∨ rest.isEmpty ∨ ¬(rest.all (·.isDigit)) then none
      else some ((digitsVal ds : ℚ) + (digitsVal rest : ℚ) / 10 ^ rest.length)
    | _ => none
  match s.toList with
  | '-' :: rest => (core rest).map (fun q => -q)
  | '+' :: rest => core rest
  | l => core l

/-- Model of `toDecimal` (`processorNewEngine.js` lines 15–23) on primitive values:
nullish values give 0, a failed string conversion is caught and gives 0, and a
non-finite number yields a non-finite Decimal (`none`). -/
def toDecimalVal (v : JsVal) : Option ℚ :=
  match v with
  | .jnull => some 0
  | .jundef => some 0
  | .jbig z => some (z : ℚ)
  | .jnum none => none
  | .jnum (some q) => some q
  | .jstr s =>
    match parseDecimalStr s with
    | some q => some q
    | none => some 0

/-- Model of `floorAtomic` (`triangularNewEngine.js` lines 43–47) on a `JsVal`:
non-finite values give 0, otherwise the floor. -/
def floorAtomicVal (v : JsVal) : ℚ :=
  match toDecimalVal v with
  | none => 0
  | some d => (⌊d⌋ : ℚ)

/-- Character of the Bitcoin/Solana base58 alphabet (digits without `0`,
upper-case letters without `I` and `O`, lower-case letters without `l`). -/
def isBase58Char (c : Char) : Bool :=
  (c.isDigit && c ≠ '0') || (c.isUpper && c ≠ 'I' && c ≠ 'O') || (c.isLower && c ≠ 'l')

/-- The claim predicate: a base58-shaped string of 32–44 characters, i.e. between
32 and 44 characters drawn from the base58 alphabet.  (The repository only checks
the length, `isBase58ish` in `unifiedReservesFetcher.js`; this stricter predicate
is the claim wording, and every counterexample below satisfies both.) -/
def isBase58Shaped (s : String) : Bool :=
  32 ≤ s.toList.length && s.toList.length ≤ 44 && s.toList.all isBase58Char

/-- Reserve-amount candidate fields probed on the outer raw pool record in
`extractReserveAmountsXY` (`triangularNewEngine.js` lines 77–95).  Absent
properties read as `undefined`. -/
structure RawPoolFields where
  xReserve : JsVal := (.jundef)
  liquidityX : JsVal := (.jundef)
  reserve_x_amount : JsVal := (.jundef)
  yReserve : JsVal := (.jundef)
  liquidityY : JsVal := (.jundef)
  reserve_y_amount : JsVal := (.jundef)

/-- Reserve-amount candidate fields probed on the nested `raw` payload in
`extractReserveAmountsXY`. -/
structure RawInnerFields where
  reserve_x_amount : JsVal := (.jundef)
  reserveXAmount : JsVal := (.jundef)
  liquidity_x : JsVal := (.jundef)
  liquidityX : JsVal := (.jundef)
  reserve_y_amount : JsVal := (.jundef)
  reserveYAmount : JsVal := (.jundef)
  liquidity_y : JsVal := (.jundef)
  liquidityY : JsVal := (.jundef)

/-- Model of `extractReserveAmountsXY` (`triangularNewEngine.js` lines 77–95):
take the first candidate accepted by `isNumericAtomic` on each side and floor it;
`none` models the `null` result. -/
def extractReserveAmountsXY (rawPool : RawPoolFields) (raw : RawInnerFields) :
    Option ℚ × Option ℚ :=
  let candidatesX := [rawPool.xReserve, rawPool.liquidityX, rawPool.reserve_x_amount,
    raw.reserve_x_amount, raw.reserveXAmount, raw.liquidity_x, raw.liquidityX]
  let candidatesY := [rawPool.yReserve, rawPool.liquidityY, rawPool.reserve_y_amount,
    raw.reserve_y_amount, raw.reserveYAmount, raw.liquidity_y, raw.liquidityY]
  ((candidatesX.find? isNumericAtomic).map floorAtomicVal,
   (candidatesY.find? isNumericAtomic).map floorAtomicVal)

/-! ## processorNewEngine.js -/

/-- Model of `pow10`. -/
def pow10 (decimals : ℕ) : ℚ := 10 ^ decimals

/-- Model of `atomicToHuman`. -/
def atomicToHuman (atomic : ℚ) (decimals : ℕ) : ℚ := atomic / pow10 decimals

/-- Model of `humanToAtomic` (the callers floor the result). -/
def humanToAtomic (human : ℚ) (decimals : ℕ) : ℚ := human * pow10 decimals

/-- Model of `normalizeFeeRate` (`processorNewEngine.js` lines 41–48): non-finite
and negative inputs give 0; a value above 1 is treated as a percentage. -/
def normalizeFeeRate (feeRate : Option ℚ) : ℚ :=
  match feeRate with
  | none => 0
  | some f => if f < 0 then 0 else if 1 < f then f / 100 else f

/-- Model of the fee-source selection in `normalizePool`
(`triangularNewEngine.js` line 153): `rawPool.fee ?? rawPool.feePct ??
raw.base_fee_percentage ?? raw.fee ?? 0`.  The outer `Option` is presence of the
field; the inner `Option ℚ` is the (possibly non-finite) coerced value. -/
def normalizePoolFee (fee feePct basefeepct rawFee : Option (Option ℚ)) : Option ℚ :=
  match fee with
  | some v => v
  | none =>
    match feePct with
    | some v => v
    | none =>
      match basefeepct with
      | some v => v
      | none =>
        match rawFee with
        | some v => v
        | none => some 0

/-- Result record of the CPMM kernel `simulateCPMMHuman`. -/
structure CpmmSim where
  dy : ℚ
  midPrice : ℚ
  executionPrice : ℚ
  executionPriceNoFee : ℚ
  priceImpactPct : ℚ
  feePaid : ℚ
deriving DecidableEq

/-- Model of `simulateCPMMHuman` (`processorNewEngine.js` lines 51–77).  `.error`
models the thrown exception. -/
def simulateCPMMHuman (x y dx : ℚ) (feeRate : Option ℚ) : Except String CpmmSim :=
  let fee := normalizeFeeRate feeRate
  if ¬(0 < x ∧ 0 < y ∧ 0 < dx) then
    .error "simulateCPMMHuman: invalid reserves or dx"
  else
    let midPrice := y / x
    let feePaid := dx * fee
    let dxAfterFee := dx - feePaid
    if ¬(0 < dxAfterFee) then
      .ok { dy := 0, midPrice := midPrice, executionPrice := 0,
            executionPriceNoFee := 0, priceImpactPct := 0, feePaid := feePaid }
    else
      let dy := y * dxAfterFee / (x + dxAfterFee)
      let executionPrice := dy / dx
      let executionPriceNoFee := dy / dxAfterFee
      let priceImpactPct :=
        if 0 < midPrice then |midPrice - executionPriceNoFee| / midPrice * 100 else 0
      .ok { dy := dy, midPrice := midPrice, executionPrice := executionPrice,
            executionPriceNoFee := executionPriceNoFee,
            priceImpactPct := priceImpactPct, feePaid := feePaid }

/-- Model of ASCII `toLowerCase`. -/
def jsToLower (s : String) : String := ⟨s.toList.map Char.toLower⟩

/-- Whether `sub` is a leading segment of `l`. -/
def listIsPrefOf : List Char → List Char → Bool
  | [], _ => true
  | _ :: _, [] => false
  | a :: as, b :: bs => a == b && listIsPrefOf as bs

/-- Whether `sub` occurs contiguously inside `l` (model of `String.includes`). -/
def listHasInf (sub : List Char) : List Char → Bool
  | [] => sub.isEmpty
  | c :: t => listIsPrefOf sub (c :: t) || listHasInf sub t

/-- Model of `s.includes(sub)`. -/
def strHasSub (s sub : String) : Bool := listHasInf sub.toList s.toList

/-- Model of `detectType` (`processorNewEngine.js` lines 79–85) applied to the
pool type string. -/
def detectType (t : String) : String :=
  let tl := jsToLower t
  if strHasSub tl "clmm" || strHasSub tl "whirlpool" || strHasSub tl "concentrated" then "clmm"
  else if strHasSub tl "dlmm" || strHasSub tl "bin" then "dlmm"
  else if strHasSub tl "cpmm" || strHasSub tl "amm" || strHasSub tl "constant" then "cpmm"
  else "cpmm"

/-- Pool record consumed by `processSwap`: the oriented shape produced by
`buildOrientedPoolForLeg` (atomic reserves, decimals of the input and output
side, raw fee value).  `fee = none` models a non-finite coerced fee. -/
structure ProcPool where
  type : String := ""
  xReserve : ℚ
  yReserve : ℚ
  baseDecimals : ℕ := 0
  quoteDecimals : ℕ := 0
  fee : Option ℚ := some 0

/-- Result record of `processSwap`. -/
structure SwapOut where
  type : String
  dxHuman : ℚ
  dy : ℚ
  feeRate : ℚ
  feePaid : ℚ
  midPrice : ℚ
  executionPrice : ℚ
  executionPriceNoFee : ℚ
  priceImpactPct : ℚ
  dyAtomic : ℤ
  dxAtomicOut : ℤ
  baseDecimals : ℕ
  quoteDecimals : ℕ
deriving DecidableEq

/-- Model of `processSwap` (`processorNewEngine.js` lines 92–137).  `optsFeeRate`
is `opts.feeRate` (`none` = absent, falling back to `pool.fee`).  Note the fee is
normalized here and again inside `simulateCPMMHuman`. -/
def processSwap (pool : ProcPool) (dxAtomic : ℚ) (optsFeeRate : Option (Option ℚ)) :
    Except String SwapOut :=
  let type := detectType pool.type
  let feeRate := normalizeFeeRate (optsFeeRate.getD pool.fee)
  if ¬(0 < pool.xReserve ∧ 0 < pool.yReserve) then
    .error "processSwap: missing reserves"
  else if ¬(0 < dxAtomic) then
    .error "processSwap: dxAtomic must be > 0"
  else
    let xHuman := atomicToHuman pool.xReserve pool.baseDecimals
    let yHuman := atomicToHuman pool.yReserve pool.quoteDecimals
    let dxHuman := atomicToHuman dxAtomic pool.baseDecimals
    match simulateCPMMHuman xHuman yHuman dxHuman (some feeRate) with
    | .error e => .error e
    | .ok sim =>
      .ok { type := type, dxHuman := dxHuman, dy := sim.dy, feeRate := feeRate,
            feePaid := sim.feePaid, midPrice := sim.midPrice,
            executionPrice := sim.executionPrice,
            executionPriceNoFee := sim.executionPriceNoFee,
            priceImpactPct := sim.priceImpactPct,
            dyAtomic := ⌊humanToAtomic sim.dy pool.quoteDecimals⌋,
            dxAtomicOut := ⌊dxAtomic⌋,
            baseDecimals := pool.baseDecimals, quoteDecimals := pool.quoteDecimals }

/-- Result record of `computeTotalCostTokenOut` (numeric fields of the returned
object and its breakdown). -/
structure CostOut where
  ok : Bool
  totalCostTokenOutHuman : ℚ
  totalCostTokenOutAtomic : ℚ
  feeCostOutHuman : ℚ := 0
  slippageCostOutHuman : ℚ := 0
  midPriceC : ℚ := 0
  feeRateC : ℚ := 0
  feePaidHumanC : ℚ := 0
deriving DecidableEq

/-- Model of `computeTotalCostTokenOut` (`processorNewEngine.js` lines 148–229):
strictly analytical fee + slippage cost in output-token units. -/
def computeTotalCostTokenOut (pool : ProcPool) (amountAtomic : ℚ)
    (optsFeeRate : Option (Option ℚ)) : CostOut :=
  let feeRate := normalizeFeeRate (optsFeeRate.getD pool.fee)
  if ¬(0 < pool.xReserve ∧ 0 < pool.yReserve ∧ 0 < amountAtomic) then
    { ok := false, totalCostTokenOutHuman := 0, totalCostTokenOutAtomic := 0 }
  else
    let xHuman := atomicToHuman pool.xReserve pool.baseDecimals
    let yHuman := atomicToHuman pool.yReserve pool.quoteDecimals
    let dxHuman := atomicToHuman amountAtomic pool.baseDecimals
    let midPrice := yHuman / xHuman
    let feePaidHuman := dxHuman * feeRate
    let dxAfterFee := dxHuman - feePaidHuman
    if ¬(0 < dxAfterFee) then
      let feeCostOut := feePaidHuman * midPrice
      { ok := true, totalCostTokenOutHuman := feeCostOut,
        totalCostTokenOutAtomic := (⌊humanToAtomic feeCostOut pool.quoteDecimals⌋ : ℚ),
        feeCostOutHuman := feeCostOut, slippageCostOutHuman := 0,
        midPriceC := midPrice, feeRateC := feeRate, feePaidHumanC := feePaidHuman }
    else
      match simulateCPMMHuman xHuman yHuman dxHuman (some feeRate) with
      | .error _ =>
        { ok := false, totalCostTokenOutHuman := 0, totalCostTokenOutAtomic := 0 }
      | .ok sim =>
        let actualOut := sim.dy
        let feeCostOut := feePaidHuman * midPrice
        let idealOutAfterFee := dxAfterFee * midPrice
        let slippageCostRaw := idealOutAfterFee - actualOut
        let slippageCostOut := if slippageCostRaw < 0 then 0 else slippageCostRaw
        let totalCostOut := feeCostOut + slippageCostOut
        { ok := true, totalCostTokenOutHuman := totalCostOut,
          totalCostTokenOutAtomic := (⌊humanToAtomic totalCostOut pool.quoteDecimals⌋ : ℚ),
          feeCostOutHuman := feeCostOut, slippageCostOutHuman := slippageCostOut,
          midPriceC := sim.midPrice, feeRateC := feeRate, feePaidHumanC := feePaidHuman }

/-! ## src/utils/ammCalculator.ts -/

/-- Result record of the `AmmCalculator` swap functions. -/
structure SwapResultTs where
  amountOut : ℚ
  priceImpact : ℚ
  effectivePrice : ℚ
  fee : ℚ
deriving DecidableEq

/-- Model of `AmmCalculator.calculateCpmmSwap` (`src/utils/ammCalculator.ts`
lines 39–78).  `.error` models the thrown validation errors. -/
def calculateCpmmSwap (amountIn reserveIn reserveOut feeRate : ℚ) :
    Except String SwapResultTs :=
  if ¬(0 < amountIn) then .error "Amount in must be positive"
  else if ¬(0 < reserveIn ∧ 0 < reserveOut) then .error "Reserves must be positive"
  else
    let fee := amountIn * feeRate
    let amountInAfterFee := amountIn - fee
    let numerator := amountInAfterFee * reserveOut
    let denominator := reserveIn + amountInAfterFee
    let amountOut := numerator / denominator
    let spotPrice := reserveOut / reserveIn
    let effectivePrice := amountOut / amountIn
    let priceImpact := |(effectivePrice - spotPrice) / spotPrice|
    .ok { amountOut := amountOut, priceImpact := priceImpact,
          effectivePrice := effectivePrice, fee := fee }

/-! ## triangularNewEngine.js -/

/-- Stable insertion into a list sorted by the boolean relation `le`: the new
element goes after every element that compares less-or-equal before it. -/
def sInsert {α : Type} (le : α → α → Bool) (x : α) : List α → List α
  | [] => [x]
  | y :: ys => if le y x then y :: sInsert le x ys else x :: y :: ys

/-- Stable sort by the boolean relation `le`; models `Array.prototype.sort` with
a consistent comparator (ECMA-262 requires the sort to be stable, so any stable
sorting algorithm produces this list). -/
def jsSortBy {α : Type} (le : α → α → Bool) (l : List α) : List α :=
  l.foldl (fun acc x => sInsert le x acc) []

/-- Model of `tokenDecimalsByMint` (`triangularNewEngine.js` lines 55–60). -/
def tokenDecimalsByMint (mint : String) (fallback : ℕ) : ℕ :=
  if mint = WSOL_MINT then 9 else if mint = USDC_MINT then 6 else fallback

/-- Normalized pool record as consumed by `findTriangularArbitrage`: the output
shape of `normalizePool` for math-ready pools (reserves are Decimal atomic
amounts; the loader drops pools whose reserves are missing). -/
structure NPool where
  poolAddress : String
  dex : String := "unknown"
  poolType : String := ""
  fee : Option ℚ := some 0
  mintX : String
  mintY : String
  xReserveAtomic : ℚ
  yReserveAtomic : ℚ
  xDecimals : ℕ := 9
  yDecimals : ℕ := 9
  tvl : ℚ := 0
  volume24h : ℚ := 0
deriving DecidableEq

/-- Model of `impliedPriceYperX` (`triangularNewEngine.js` lines 167–173).  The
JS nullish guard on the reserves never fires for Decimal-valued reserves (a
Decimal object is truthy even when zero), so only the positivity checks remain. -/
def impliedPriceYperX (p : NPool) : Option ℚ :=
  let xH := p.xReserveAtomic / 10 ^ p.xDecimals
  let yH := p.yReserveAtomic / 10 ^ p.yDecimals
  if xH ≤ 0 ∨ yH ≤ 0 then none else some (yH / xH)

/-- Model of `median` (`triangularNewEngine.js` lines 260–266): sort ascending,
take the middle element, or the mean of the two middle elements. -/
def median (values : List ℚ) : Option ℚ :=
  let a := jsSortBy (fun x y => decide (x ≤ y)) values
  if a.isEmpty then none
  else
    let mid := a.length / 2
    if a.length % 2 = 1 then some (a.getD mid 0)
    else some ((a.getD (mid - 1) 0 + a.getD mid 0) / 2)

/-- Whether the pool is a WSOL/USDC pair in either orientation. -/
def isSolUsdcPair (p : NPool) : Prop :=
  (p.mintX = WSOL_MINT ∧ p.mintY = USDC_MINT) ∨ (p.mintX = USDC_MINT ∧ p.mintY = WSOL_MINT)
instance (p : NPool) : Decidable (isSolUsdcPair p) := by
  unfold isSolUsdcPair; infer_instance

/-- Model of `computeSolUsdcMedianPrice` (`triangularNewEngine.js` lines
268–279). -/
def computeSolUsdcMedianPrice (pools : List NPool) : Option ℚ :=
  let prices := pools.filterMap (fun p =>
    if ¬ isSolUsdcPair p then none
    else
      match impliedPriceYperX p with
      | none => none
      | some priceYperX =>
        let usdcPerSol := if p.mintX = WSOL_MINT then priceYperX else 1 / priceYperX
        if 0 < usdcPerSol then some usdcPerSol else none)
  median prices

/-- Model of `isSolUsdcPoolMispriced` (`triangularNewEngine.js` lines 281–295). -/
def isSolUsdcPoolMispriced (pool : NPool) (solUsdcMedian : Option ℚ) (factor : ℚ) : Bool :=
  match solUsdcMedian with
  | none => false
  | some m =>
    if ¬ isSolUsdcPair pool then false
    else
      match impliedPriceYperX pool with
      | none => true
      | some p =>
        let usdcPerSol := if pool.mintX = WSOL_MINT then p else 1 / p
        if ¬(0 < usdcPerSol) then true
        else decide (usdcPerSol < m / factor ∨ m * factor < usdcPerSol)

/-- Oriented pool built for one leg: the `ProcPool` shape handed to `processSwap`
plus the book-keeping fields of `buildOrientedPoolForLeg`. -/
structure OrientedPool where
  proc : ProcPool
  poolAddressO : String
  dexO : String
  inMintO : String
  outMintO : String

/-- Model of `buildOrientedPoolForLeg` (`triangularNewEngine.js` lines 205–235):
align the pool reserves with the requested input/output mints. -/
def buildOrientedPoolForLeg (pool : NPool) (inputMint outputMint : String) :
    Option OrientedPool :=
  let xToY := pool.mintX = inputMint ∧ pool.mintY = outputMint
  let yToX := pool.mintY = inputMint ∧ pool.mintX = outputMint
  if xToY then
    some { proc := { type := pool.poolType, xReserve := pool.xReserveAtomic,
                     yReserve := pool.yReserveAtomic, baseDecimals := pool.xDecimals,
                     quoteDecimals := pool.yDecimals, fee := pool.fee },
           poolAddressO := pool.poolAddress, dexO := pool.dex,
           inMintO := inputMint, outMintO := outputMint }
  else if yToX then
    some { proc := { type := pool.poolType, xReserve := pool.yReserveAtomic,
                     yReserve := pool.xReserveAtomic, baseDecimals := pool.yDecimals,
                     quoteDecimals := pool.xDecimals, fee := pool.fee },
           poolAddressO := pool.poolAddress, dexO := pool.dex,
           inMintO := inputMint, outMintO := outputMint }
  else none

/-- Result of `simulateLeg`. -/
structure LegResult where
  oriented : OrientedPool
  sim : SwapOut
  dxAtomicL : ℚ
  dyAtomic : ℤ
  cost : CostOut

/-- Model of `simulateLeg` (`triangularNewEngine.js` lines 238–257).  A
`processSwap` exception cannot occur on pools with positive reserves (it would
abort the whole search in JS); it is mapped to a failed leg here. -/
def simulateLeg (pool : NPool) (inputMint outputMint : String) (dxAtomic : ℚ) :
    Option LegResult :=
  match buildOrientedPoolForLeg pool inputMint outputMint with
  | none => none
  | some oriented =>
    let dxA : ℚ := (⌊dxAtomic⌋ : ℚ)
    if dxA ≤ 0 then none
    else
      match processSwap oriented.proc dxA (some oriented.proc.fee) with
      | .error _ => none
      | .ok sim =>
        let dyAtomic : ℤ := ⌊humanToAtomic sim.dy oriented.proc.quoteDecimals⌋
        let cost := computeTotalCostTokenOut oriented.proc dxA (some oriented.proc.fee)
        some { oriented := oriented, sim := sim, dxAtomicL := dxA,
               dyAtomic := dyAtomic, cost := cost }

/-- Per-leg summary stored in the cycle result (`legBreakdowns` in the source;
the echoed `sim` and `cost` objects are reachable through `simulateLeg` and are
omitted from the record). -/
structure LegBrk where
  poolB : String
  inputAtomicB : ℚ
  outputAtomicB : ℤ
deriving DecidableEq

/-- Cycle record pushed onto `results` in `findTriangularArbitrage`. -/
structure CycleResult where
  tokenA : String
  tokenB : String
  tokenC : String
  pools : List String
  dexes : List String
  inputAtomic : ℚ
  outputAtomic : ℤ
  profitAtomic : ℚ
  profitPct : ℚ
  netAfterCostsAtomic : ℚ
  netAfterCostsPct : ℚ
  passes : Bool
  leg1 : LegBrk
  leg2 : LegBrk
  leg3 : LegBrk
deriving DecidableEq

/-- Body of the innermost loop of `findTriangularArbitrage`
(`triangularNewEngine.js` lines 368–455): simulate the three legs, apply the
profit safety bounds, attribute analytical costs in token A, and build the
cycle record; `none` models `continue`. -/
def evalTriple (A C : String) (inputA : ℚ) (minProfitPct maxProfitPct maxLossPct : ℚ)
    (B : String) (pAB pBC pCA : NPool) : Option CycleResult :=
  (simulateLeg pAB A B inputA).bind fun leg1 =>
    (simulateLeg pBC B C (leg1.dyAtomic : ℚ)).bind fun leg2 =>
      (simulateLeg pCA C A (leg2.dyAtomic : ℚ)).bind fun leg3 =>
        let outA := leg3.dyAtomic
        let profitAtomic : ℚ := (outA : ℚ) - inputA
        let profitPct := profitAtomic / inputA * 100
        if maxProfitPct < profitPct ∨ profitPct < 0 - maxLossPct then none
        else
          let cost3A : ℚ := if leg3.cost.ok then leg3.cost.totalCostTokenOutAtomic else 0
          let mid3_AperC := leg3.sim.midPrice
          let mid2_CperB := leg2.sim.midPrice
          let cost2C_atomic : ℚ := if leg2.cost.ok then leg2.cost.totalCostTokenOutAtomic else 0
          let cost1B_atomic : ℚ := if leg1.cost.ok then leg1.cost.totalCostTokenOutAtomic else 0
          let cost2C_h := atomicToHuman cost2C_atomic leg2.oriented.proc.quoteDecimals
          let cost1B_h := atomicToHuman cost1B_atomic leg1.oriented.proc.quoteDecimals
          let cost2A_h := cost2C_h * mid3_AperC
          let cost1A_h := cost1B_h * mid2_CperB * mid3_AperC
          let aDecimals := tokenDecimalsByMint A 9
          let costTotalA_atomic : ℚ :=
            (⌊humanToAtomic (cost1A_h + cost2A_h) aDecimals⌋ : ℚ) + cost3A
          let netAfterCostsAtomic := profitAtomic - costTotalA_atomic
          let netAfterCostsPct := netAfterCostsAtomic / inputA * 100
          some { tokenA := A, tokenB := B, tokenC := C,
                 pools := [pAB.poolAddress, pBC.poolAddress, pCA.poolAddress],
                 dexes := [pAB.dex, pBC.dex, pCA.dex],
                 inputAtomic := inputA, outputAtomic := outA,
                 profitAtomic := profitAtomic, profitPct := profitPct,
                 netAfterCostsAtomic := netAfterCostsAtomic,
                 netAfterCostsPct := netAfterCostsPct,
                 passes := decide (minProfitPct ≤ netAfterCostsPct),
                 leg1 := { poolB := pAB.poolAddress, inputAtomicB := inputA,
                           outputAtomicB := leg1.dyAtomic },
                 leg2 := { poolB := pBC.poolAddress, inputAtomicB := (leg1.dyAtomic : ℚ),
                           outputAtomicB := leg2.dyAtomic },
                 leg3 := { poolB := pCA.poolAddress, inputAtomicB := (leg2.dyAtomic : ℚ),
                           outputAtomicB := leg3.dyAtomic } }

/-- Options record of `findTriangularArbitrage` with the source defaults
(`minProfitPct` is the pass threshold). -/
structure TriParams where
  tokenA : String := WSOL_MINT
  tokenC : String := USDC_MINT
  inputAmountAtomic : ℚ := 1000000000
  minProfitPct : ℚ := 1 / 10
  maxProfitPct : ℚ := 50
  maxLossPct : ℚ := 90
  maxPoolsPerLeg : ℕ := 6
  minTvl : ℚ := 0
  minVolume24h : ℚ := 0
  filterMispricedSolUsdc : Bool := true

/-- TVL/volume pre-filter (`triangularNewEngine.js` line 318). -/
def eligiblePools (pools : List NPool) (ps : TriParams) : List NPool :=
  pools.filter (fun p => ps.minTvl ≤ p.tvl ∧ ps.minVolume24h ≤ p.volume24h)

/-- Median-based SOL/USDC outlier filter (`triangularNewEngine.js` lines
320–326). -/
def filteredPools (pools : List NPool) (ps : TriParams) : List NPool :=
  let eligible := eligiblePools pools ps
  let m := computeSolUsdcMedianPrice eligible
  if ps.filterMispricedSolUsdc ∧ m.isSome then
    eligible.filter (fun p => ¬ isSolUsdcPoolMispriced p m 2)
  else eligible

/-- Pools stored under the ordered key `m1|m2` by the `addPair` double insertion
(`triangularNewEngine.js` lines 335–351), in insertion order. -/
def getPairPools (pools : List NPool) (m1 m2 : String) : List NPool :=
  pools.flatMap (fun p =>
    (if p.mintX = m1 ∧ p.mintY = m2 then [p] else []) ++
    (if p.mintY = m1 ∧ p.mintX = m2 then [p] else []))

/-- Insertion-ordered set insertion (JS `Set.add`). -/
def sAddTok (l : List String) (x : String) : List String :=
  if x ∈ l then l else l ++ [x]

/-- Tokens sharing a pool with `t` (the `tokensConnectedToA`/`tokensConnectedToC`
sets), in insertion order. -/
def tokensConnectedTo (pools : List NPool) (t : String) : List String :=
  pools.foldl (fun acc p =>
    let acc2 := if p.mintX = t then sAddTok acc p.mintY else acc
    if p.mintY = t then sAddTok acc2 p.mintX else acc2) []

/-- Candidate intermediate tokens (`triangularNewEngine.js` line 353). -/
def candidateBs (pools : List NPool) (A C : String) : List String :=
  (tokensConnectedTo pools A).filter
    (fun t => t ∈ tokensConnectedTo pools C ∧ t ≠ A ∧ t ≠ C)

/-- The unsorted `results` list accumulated by the triple loops of
`findTriangularArbitrage` (lines 358–458), in enumeration order. -/
def enumerateCycles (pools : List NPool) (ps : TriParams) : List CycleResult :=
  match pools with
  | [] => []
  | _ :: _ =>
    let pf := filteredPools pools ps
    let A := ps.tokenA
    let C := ps.tokenC
    let inputA : ℚ := (⌊ps.inputAmountAtomic⌋ : ℚ)
    (candidateBs pf A C).flatMap (fun B =>
      let poolsAB := (getPairPools pf A B).take ps.maxPoolsPerLeg
      let poolsBC := (getPairPools pf B C).take ps.maxPoolsPerLeg
      let poolsCA := (getPairPools pf C A).take ps.maxPoolsPerLeg
      if poolsAB.isEmpty ∨ poolsBC.isEmpty ∨ poolsCA.isEmpty then []
      else
        poolsAB.flatMap (fun pAB =>
          poolsBC.flatMap (fun pBC =>
            poolsCA.filterMap (fun pCA =>
              evalTriple A C inputA ps.minProfitPct ps.maxProfitPct ps.maxLossPct
                B pAB pBC pCA))))

/-- Model of `findTriangularArbitrage` (`triangularNewEngine.js` lines 298–462):
enumerate the cycles, then sort by `netAfterCostsPct` descending with the stable
comparator `(a, b) => D(b.netAfterCostsPct).comparedTo(D(a.netAfterCostsPct))`
and return the whole sorted list. -/
def findTriangularArbitrage (pools : List NPool) (ps : TriParams) : List CycleResult :=
  jsSortBy (fun a b => decide (b.netAfterCostsPct ≤ a.netAfterCostsPct))
    (enumerateCycles pools ps)

/-! ## Concrete scenario data -/

/-- A base58-shaped string (32 characters, all `1` — the very shape of the
Solana system-program address) that is also a pure digit string. -/
def ones32 : String := "11111111111111111111111111111111"

/-- Pure amount propagation of one leg: orientation, floor, `processSwap`, floor —
with no reference to the analytical cost function. -/
def propagateLeg (pool : NPool) (inputMint outputMint : String) (dxAtomic : ℚ) :
    Option ℤ :=
  match buildOrientedPoolForLeg pool inputMint outputMint with
  | none => none
  | some oriented =>
    let dxA : ℚ := (⌊dxAtomic⌋ : ℚ)
    if dxA ≤ 0 then none
    else
      match processSwap oriented.proc dxA (some oriented.proc.fee) with
      | .error _ => none
      | .ok sim => some ⌊humanToAtomic sim.dy oriented.proc.quoteDecimals⌋

/-- Implied WSOL/USDC price of a pool, following the spec wording (§4.7):
`implied_price = y_reserve × 10^decimals_x / (x_reserve × 10^decimals_y)`,
oriented to USDC per SOL. -/
def impliedUsdcPerSolSpec (p : NPool) : ℚ :=
  let implied := p.yReserveAtomic * 10 ^ p.xDecimals / (p.xReserveAtomic * 10 ^ p.yDecimals)
  if p.mintX = WSOL_MINT then implied else 1 / implied

/-- Balanced 1000/1000 pool Am→Bm with zero fee and 0 decimals. -/
def wP1 : NPool :=
  { poolAddress := "P1", dex := "d", poolType := "cpmm", fee := some 0,
    mintX := "Am", mintY := "Bm", xReserveAtomic := 1000, yReserveAtomic := 1000,
    xDecimals := 0, yDecimals := 0, tvl := 0, volume24h := 0 }

/-- Balanced 1000/1000 pool Bm→Cm. -/
def wP2 : NPool :=
  { poolAddress := "P2", dex := "d", poolType := "cpmm", fee := some 0,
    mintX := "Bm", mintY := "Cm", xReserveAtomic := 1000, yReserveAtomic := 1000,
    xDecimals := 0, yDecimals := 0, tvl := 0, volume24h := 0 }

/-- Balanced 1000/1000 pool Cm→Am. -/
def wP3 : NPool :=
  { poolAddress := "P3", dex := "d", poolType := "cpmm", fee := some 0,
    mintX := "Cm", mintY := "Am", xReserveAtomic := 1000, yReserveAtomic := 1000,
    xDecimals := 0, yDecimals := 0, tvl := 0, volume24h := 0 }

/-- The cycle produced on `wP1`/`wP2`/`wP3` with input 10: the legs floor
10 → 9 → 8 → 7, a −30% round trip with zero attributed costs. -/
def wCycle : CycleResult :=
  { tokenA := "Am", tokenB := "Bm", tokenC := "Cm",
    pools := ["P1", "P2", "P3"], dexes := ["d", "d", "d"],
    inputAtomic := 10, outputAtomic := 7, profitAtomic := -3, profitPct := -30,
    netAfterCostsAtomic := -3, netAfterCostsPct := -30, passes := false,
    leg1 := { poolB := "P1", inputAtomicB := 10, outputAtomicB := 9 },
    leg2 := { poolB := "P2", inputAtomicB := 9, outputAtomicB := 8 },
    leg3 := { poolB := "P3", inputAtomicB := 8, outputAtomicB := 7 } }

/-- Parameters of the concrete searches: tokens Am/Cm, one starting unit of 10. -/
def wps : TriParams :=
  { tokenA := "Am", tokenC := "Cm", inputAmountAtomic := 10 }

/-- WSOL→Bw pool for the anchored scenario. -/
def q1 : NPool :=
  { poolAddress := "Q1", dex := "d", poolType := "cpmm", fee := some 0,
    mintX := WSOL_MINT, mintY := "Bw", xReserveAtomic := 1000, yReserveAtomic := 1000,
    xDecimals := 0, yDecimals := 0, tvl := 0, volume24h := 0 }

/-- Bw→USDC pool. -/
def q2 : NPool :=
  { poolAddress := "Q2", dex := "d", poolType := "cpmm", fee := some 0,
    mintX := "Bw", mintY := USDC_MINT, xReserveAtomic := 1000, yReserveAtomic := 1000,
    xDecimals := 0, yDecimals := 0, tvl := 0, volume24h := 0 }

/-- USDC→WSOL pool; the only WSOL/USDC pair, implied price 1. -/
def q3 : NPool :=
  { poolAddress := "Q3", dex := "d", poolType := "cpmm", fee := some 0,
    mintX := USDC_MINT, mintY := WSOL_MINT, xReserveAtomic := 1000, yReserveAtomic := 1000,
    xDecimals := 0, yDecimals := 0, tvl := 0, volume24h := 0 }

/-- Default-token parameters with input 10. -/
def wps7 : TriParams := { inputAmountAtomic := 10 }

/-- The cycle produced on `q1`/`q2`/`q3`. -/
def wCycle7 : CycleResult :=
  { tokenA := WSOL_MINT, tokenB := "Bw", tokenC := USDC_MINT,
    pools := ["Q1", "Q2", "Q3"], dexes := ["d", "d", "d"],
    inputAtomic := 10, outputAtomic := 7, profitAtomic := -3, profitPct := -30,
    netAfterCostsAtomic := -3, netAfterCostsPct := -30, passes := false,
    leg1 := { poolB := "Q1", inputAtomicB := 10, outputAtomicB := 9 },
    leg2 := { poolB := "Q2", inputAtomicB := 9, outputAtomicB := 8 },
    leg3 := { poolB := "Q3", inputAtomicB := 8, outputAtomicB := 7 } }

/-- Copy of `wP1` under pool address `Zp` (listed first). -/
def zP : NPool :=
  { poolAddress := "Zp", dex := "d", poolType := "cpmm", fee := some 0,
    mintX := "Am", mintY := "Bm", xReserveAtomic := 1000, yReserveAtomic := 1000,
    xDecimals := 0, yDecimals := 0, tvl := 0, volume24h := 0 }

/-- Copy of `wP1` under pool address `Ap` (listed second). -/
def aP : NPool :=
  { poolAddress := "Ap", dex := "d", poolType := "cpmm", fee := some 0,
    mintX := "Am", mintY := "Bm", xReserveAtomic := 1000, yReserveAtomic := 1000,
    xDecimals := 0, yDecimals := 0, tvl := 0, volume24h := 0 }

/-- The cycle through `Zp`. -/
def zCycle : CycleResult :=
  { tokenA := "Am", tokenB := "Bm", tokenC := "Cm",
    pools := ["Zp", "P2", "P3"], dexes := ["d", "d", "d"],
    inputAtomic := 10, outputAtomic := 7, profitAtomic := -3, profitPct := -30,
    netAfterCostsAtomic := -3, netAfterCostsPct := -30, passes := false,
    leg1 := { poolB := "Zp", inputAtomicB := 10, outputAtomicB := 9 },
    leg2 := { poolB := "P2", inputAtomicB := 9, outputAtomicB := 8 },
    leg3 := { poolB := "P3", inputAtomicB := 8, outputAtomicB := 7 } }

/-- The cycle through `Ap`; same numbers as `zCycle`, tie on the ranking key. -/
def aCycle : CycleResult :=
  { tokenA := "Am", tokenB := "Bm", tokenC := "Cm",
    pools := ["Ap", "P2", "P3"], dexes := ["d", "d", "d"],
    inputAtomic := 10, outputAtomic := 7, profitAtomic := -3, profitPct := -30,
    netAfterCostsAtomic := -3, netAfterCostsPct := -30, passes := false,
    leg1 := { poolB := "Ap", inputAtomicB := 10, outputAtomicB := 9 },
    leg2 := { poolB := "P2", inputAtomicB := 9, outputAtomicB := 8 },
    leg3 := { poolB := "P3", inputAtomicB := 8, outputAtomicB := 7 } }

/-! ## Properties of the stable sort `jsSortBy` -/
theorem sInsert_perm {α : Type} (le : α → α → Bool) (x : α) (l : List α) :
    (sInsert le x l).Perm (x :: l) := by
  induction l with
  | nil => exact List.Perm.refl _
  | cons y ys ih =>
    unfold sInsert
    by_cases h : le y x
    · rw [if_pos h]
      exact (List.Perm.cons y ih).trans (List.Perm.swap x y ys)
    · rw [if_neg h]
theorem foldl_sInsert_perm {α : Type} (le : α → α → Bool) (l acc : List α) :
    (l.foldl (fun a x => sInsert le x a) acc).Perm (acc ++ l) := by
  induction l generalizing acc with
  | nil => simp
  | cons x xs ih =>
    simp only [List.foldl_cons]
    refine (ih (sInsert le x acc)).trans ?_
    refine (((sInsert_perm le x acc).append_right xs).trans ?_)
    exact List.perm_middle.symm
theorem jsSortBy_perm {α : Type} (le : α → α → Bool) (l : List α) :
    (jsSortBy le l).Perm l := by
  simpa using foldl_sInsert_perm le l []
theorem sInsert_eq_takeWhile_dropWhile {α : Type} (le : α → α → Bool) (x : α)
    (l : List α) :
    sInsert le x l =
      l.takeWhile (fun y => le y x) ++ x :: l.dropWhile (fun y => le y x) := by
  induction l with
  | nil => rfl
  | cons y ys ih =>
    unfold sInsert
    by_cases h : le y x
    · rw [if_pos h]
      simp [List.takeWhile_cons, List.dropWhile_cons, h, ih]
    · rw [if_neg h]
      simp [List.takeWhile_cons, List.dropWhile_cons, h]
theorem sInsert_pairwise {α : Type} (le : α → α → Bool)
    (htot : ∀ a b, le a b = true ∨ le b a = true)
    (htrans : ∀ a b c, le a b = true → le b c = true → le a c = true)
    (x : α) (l : List α) (h : l.Pairwise (fun a b => le a b = true)) :
    (sInsert le x l).Pairwise (fun a b => le a b = true) := by
  induction l with
  | nil => exact List.pairwise_singleton _ x
  | cons y ys ih =>
    rcases List.pairwise_cons.mp h with ⟨hy, hys⟩
    unfold sInsert
    by_cases hyx : le y x
    · rw [if_pos hyx]
      refine List.pairwise_cons.mpr ⟨?_, ih hys⟩
      intro z hz
      rcases List.mem_cons.mp ((sInsert_perm le x ys).mem_iff.mp hz) with rfl | hz
      · exact hyx
      · exact hy z hz
    · rw [if_neg hyx]
      have hxy : le x y = true := (htot x y).resolve_right (by simpa using hyx)
      refine List.pairwise_cons.mpr ⟨?_, h⟩
      intro z hz
      rcases List.mem_cons.mp hz with rfl | hz
      · exact hxy
      · exact htrans x y z hxy (hy z hz)
theorem jsSortBy_pairwise {α : Type} (le : α → α → Bool)
    (htot : ∀ a b, le a b = true ∨ le b a = true)
    (htrans : ∀ a b c, le a b = true → le b c = true → le a c = true)
    (l : List α) :
    (jsSortBy le l).Pairwise (fun a b => le a b = true) := by
  suffices h : ∀ acc : List α, acc.Pairwise (fun a b => le a b = true) →
      (l.foldl (fun a x => sInsert le x a) acc).Pairwise (fun a b => le a b = true) by
    exact h [] List.Pairwise.nil
  induction l with
  | nil => intro acc hacc; simpa using hacc
  | cons x xs ih =>
    intro acc hacc
    simpa using ih (sInsert le x acc) (sInsert_pairwise le htot htrans x acc hacc)
theorem key_lt_of_mem_dropWhile {α : Type} (k : α → ℚ) (x : α) (acc : List α)
    (hsorted : acc.Pairwise (fun a b => (decide (k b ≤ k a)) = true)) :
    ∀ z ∈ acc.dropWhile (fun y => decide (k x ≤ k y)), k z < k x := by
  induction acc with
  | nil => intro z hz; simp at hz
  | cons y ys ih =>
    rcases List.pairwise_cons.mp hsorted with ⟨hy, hys⟩
    intro z hz
    rw [List.dropWhile_cons] at hz
    by_cases h : k x ≤ k y
    · rw [if_pos (by simpa using h)] at hz
      exact ih hys z hz
    · rw [if_neg (by simpa using h)] at hz
      rcases List.mem_cons.mp hz with rfl | hz
      · exact lt_of_not_le h
      · have := hy z hz
        simp only [decide_eq_true_eq] at this
        exact lt_of_le_of_lt this (lt_of_not_le h)
theorem filter_sInsert_of_key_eq {α : Type} (k : α → ℚ) (c : ℚ) (x : α) (acc : List α)
    (hx : k x = c)
    (hsorted : acc.Pairwise (fun a b => (decide (k b ≤ k a)) = true)) :
    (sInsert (fun a b => decide (k b ≤ k a)) x acc).filter (fun r => decide (k r = c)) =
      acc.filter (fun r => decide (k r = c)) ++ [x] := by
  rw [sInsert_eq_takeWhile_dropWhile, List.filter_append, List.filter_cons]
  have hdw : (acc.dropWhile (fun y => decide (k x ≤ k y))).filter
      (fun r => decide (k r = c)) = [] := by
    rw [List.filter_eq_nil]
    intro z hz
    have hlt := key_lt_of_mem_dropWhile k x acc hsorted z hz
    rw [hx] at hlt
    simp only [decide_eq_true_eq]
    exact ne_of_lt hlt
  have hacc : acc.filter (fun r => decide (k r = c)) =
      (acc.takeWhile (fun y => decide (k x ≤ k y))).filter (fun r => decide (k r = c)) := by
    conv_lhs => rw [← List.takeWhile_append_dropWhile
      (p := fun y => decide (k x ≤ k y)) (l := acc)]
    rw [List.filter_append, hdw, List.append_nil]
  rw [hdw, hacc, if_pos (by simpa using hx)]
theorem filter_sInsert_of_key_ne {α : Type} (k : α → ℚ) (c : ℚ) (x : α) (acc : List α)
    (hx : k x ≠ c) :
    (sInsert (fun a b => decide (k b ≤ k a)) x acc).filter (fun r => decide (k r = c)) =
      acc.filter (fun r => decide (k r = c)) := by
  rw [sInsert_eq_takeWhile_dropWhile, List.filter_append, List.filter_cons,
    if_neg (by simpa using hx), ← List.filter_append,
    List.takeWhile_append_dropWhile]
theorem foldl_sInsert_filter {α : Type} (k : α → ℚ) (c : ℚ) (l acc : List α)
    (hacc : acc.Pairwise (fun a b => (decide (k b ≤ k a)) = true)) :
    (l.foldl (fun a x => sInsert (fun a b => decide (k b ≤ k a)) x a) acc).filter
        (fun r => decide (k r = c)) =
      acc.filter (fun r => decide (k r = c)) ++ l.filter (fun r => decide (k r = c)) := by
  induction l generalizing acc with
  | nil => simp
  | cons x xs ih =>
    have htot : ∀ a b : α, (decide (k b ≤ k a)) = true ∨ (decide (k a ≤ k b)) = true := by
      intro a b; simpa using le_total (k b) (k a)
    have htrans : ∀ a b c : α, (decide (k b ≤ k a)) = true → (decide (k c ≤ k b)) = true →
        (decide (k c ≤ k a)) = true := by
      intro a b c h1 h2
      simp only [decide_eq_true_eq] at h1 h2 ⊢
      exact h2.trans h1
    have hins := sInsert_pairwise (fun a b => decide (k b ≤ k a)) htot htrans x acc hacc
    simp only [List.foldl_cons]
    rw [ih _ hins, List.filter_cons]
    by_cases hx : k x = c
    · rw [filter_sInsert_of_key_eq k c x acc hx hacc, if_pos (by simpa using hx)]
      simp
    · rw [filter_sInsert_of_key_ne k c x acc hx, if_neg (by simpa using hx)]
theorem jsSortBy_stable {α : Type} (k : α → ℚ) (c : ℚ) (l : List α) :
    (jsSortBy (fun a b => decide (k b ≤ k a)) l).filter (fun r => decide (k r = c)) =
      l.filter (fun r => decide (k r = c)) := by
  simpa using foldl_sInsert_filter k c l [] List.Pairwise.nil

/-! ## CPMM kernel lemmas -/
theorem normalizeFeeRate_of_unit (f : ℚ) (hf0 : 0 ≤ f) (hf1 : f ≤ 1) :
    normalizeFeeRate (some f) = f := by
  simp only [normalizeFeeRate]
  rw [if_neg (not_lt.mpr hf0), if_neg (not_lt.mpr hf1)]
theorem simulateCPMMHuman_pos (x y dx f : ℚ) (hx : 0 < x) (hy : 0 < y) (hdx : 0 < dx)
    (hf0 : 0 ≤ f) (hf1 : f < 1) :
    simulateCPMMHuman x y dx (some f) = .ok
      { dy := y * (dx - dx * f) / (x + (dx - dx * f)),
        midPrice := y / x,
        executionPrice := y * (dx - dx * f) / (x + (dx - dx * f)) / dx,
        executionPriceNoFee := y * (dx - dx * f) / (x + (dx - dx * f)) / (dx - dx * f),
        priceImpactPct :=
          |y / x - y * (dx - dx * f) / (x + (dx - dx * f)) / (dx - dx * f)| / (y / x) * 100,
        feePaid := dx * f } := by
  have hdxa : 0 < dx - dx * f := by nlinarith
  simp only [simulateCPMMHuman, normalizeFeeRate_of_unit f hf0 hf1.le]
  rw [if_neg (not_not_intro ⟨hx, hy, hdx⟩), if_neg (not_not_intro hdxa),
    if_pos (div_pos hy hx)]
theorem simulateCPMMHuman_isOk (x y dx : ℚ) (fr : Option ℚ)
    (hx : 0 < x) (hy : 0 < y) (hdx : 0 < dx) :
    ∃ s, simulateCPMMHuman x y dx fr = .ok s := by
  simp only [simulateCPMMHuman]
  rw [if_neg (not_not_intro ⟨hx, hy, hdx⟩)]
  by_cases h : 0 < dx - dx * normalizeFeeRate fr
  · rw [if_neg (not_not_intro h)]
    exact ⟨_, rfl⟩
  · rw [if_pos h]
    exact ⟨_, rfl⟩

/-- C1: for CPMM swaps with positive reserves and input and a fee fraction in
[0, 1), the kernel `simulateCPMMHuman` returns exactly `fee_paid = dx·fee`,
`dy = y·(dx − fee_paid)/(x + (dx − fee_paid))`, `mid_price = y/x`,
`exec_price = dy/dx` and `price_impact_pct = |mid − dy/(dx − fee_paid)|/mid·100`
(slippage isolated by dividing by the post-fee input); the TypeScript kernel
`AmmCalculator.calculateCpmmSwap` computes the same output amount and fee. -/
theorem C1_cpmm_kernel (x y dx f : ℚ) (hx : 0 < x) (hy : 0 < y) (hdx : 0 < dx)
    (hf0 : 0 ≤ f) (hf1 : f < 1) :
    ∃ r, simulateCPMMHuman x y dx (some f) = .ok r ∧
      r.feePaid = dx * f ∧
      r.dy = y * (dx - r.feePaid) / (x + (dx - r.feePaid)) ∧
      r.midPrice = y / x ∧
      r.executionPrice = r.dy / dx ∧
      r.priceImpactPct = |r.midPrice - r.dy / (dx - r.feePaid)| / r.midPrice * 100 ∧
      ∃ s, calculateCpmmSwap dx x y f = .ok s ∧ s.amountOut = r.dy ∧ s.fee = r.feePaid := by
  have hcalc : calculateCpmmSwap dx x y f = .ok
      { amountOut := (dx - dx * f) * y / (x + (dx - dx * f)),
        priceImpact := |((dx - dx * f) * y / (x + (dx - dx * f)) / dx - y / x) / (y / x)|,
        effectivePrice := (dx - dx * f) * y / (x + (dx - dx * f)) / dx,
        fee := dx * f } := by
    simp only [calculateCpmmSwap]
    rw [if_neg (not_not_intro hdx), if_neg (not_not_intro ⟨hx, hy⟩)]
  refine ⟨_, simulateCPMMHuman_pos x y dx f hx hy hdx hf0 hf1,
    rfl, rfl, rfl, rfl, rfl, _, hcalc, ?_, rfl⟩
  show (dx - dx * f) * y / (x + (dx - dx * f)) = y * (dx - dx * f) / (x + (dx - dx * f))
  ring

/-- Witness for C1 at the spec scenario S2: pool x = 1000, y = 2000,
fee = 0.0025, dx = 10. -/
theorem C1_cpmm_kernel_witness :
    (0:ℚ) < 1000 ∧ (0:ℚ) < 2000 ∧ (0:ℚ) < 10 ∧ (0:ℚ) ≤ 1/400 ∧ (1/400:ℚ) < 1 ∧
    (∃ r, simulateCPMMHuman 1000 2000 10 (some (1/400)) = .ok r ∧
      r.feePaid = 10 * (1/400) ∧
      r.dy = 2000 * (10 - r.feePaid) / (1000 + (10 - r.feePaid)) ∧
      r.midPrice = 2000 / 1000 ∧
      r.executionPrice = r.dy / 10 ∧
      r.priceImpactPct = |r.midPrice - r.dy / (10 - r.feePaid)| / r.midPrice * 100 ∧
      ∃ s, calculateCpmmSwap 10 1000 2000 (1/400) = .ok s ∧
        s.amountOut = r.dy ∧ s.fee = r.feePaid) :=
  ⟨by norm_num, by norm_num, by norm_num, by norm_num, by norm_num,
   C1_cpmm_kernel 1000 2000 10 (1/400) (by norm_num) (by norm_num) (by norm_num)
     (by norm_num) (by norm_num)⟩

/-- C4: for a leg with positive reserves and input and a fee fraction in [0, 1),
the analytical cost function returns, in output-token units,
`fee_cost_out = dx_human·fee·mid_price`,
`slippage_cost_out = max(0, dx_human·mid_price − fee_cost_out − dy_human)` and
`total_cost_out = fee_cost_out + slippage_cost_out`. -/
theorem C4_analytical_cost (pool : ProcPool) (dxA f : ℚ)
    (hx : 0 < pool.xReserve) (hy : 0 < pool.yReserve) (hdx : 0 < dxA)
    (hf0 : 0 ≤ f) (hf1 : f < 1) :
    (computeTotalCostTokenOut pool dxA (some (some f))).ok = true ∧
    (computeTotalCostTokenOut pool dxA (some (some f))).feeCostOutHuman =
      atomicToHuman dxA pool.baseDecimals * f *
        (atomicToHuman pool.yReserve pool.quoteDecimals /
         atomicToHuman pool.xReserve pool.baseDecimals) ∧
    (computeTotalCostTokenOut pool dxA (some (some f))).slippageCostOutHuman =
      max 0 (atomicToHuman dxA pool.baseDecimals *
          (atomicToHuman pool.yReserve pool.quoteDecimals /
           atomicToHuman pool.xReserve pool.baseDecimals) -
        (computeTotalCostTokenOut pool dxA (some (some f))).feeCostOutHuman -
        atomicToHuman pool.yReserve pool.quoteDecimals *
          (atomicToHuman dxA pool.baseDecimals - atomicToHuman dxA pool.baseDecimals * f) /
          (atomicToHuman pool.xReserve pool.baseDecimals +
           (atomicToHuman dxA pool.baseDecimals - atomicToHuman dxA pool.baseDecimals * f))) ∧
    (computeTotalCostTokenOut pool dxA (some (some f))).totalCostTokenOutHuman =
      (computeTotalCostTokenOut pool dxA (some (some f))).feeCostOutHuman +
      (computeTotalCostTokenOut pool dxA (some (some f))).slippageCostOutHuman := by
  set xH := atomicToHuman pool.xReserve pool.baseDecimals with hxH
  set yH := atomicToHuman pool.yReserve pool.quoteDecimals with hyH
  set dxH := atomicToHuman dxA pool.baseDecimals with hdxH
  have hxHpos : 0 < xH := by
    rw [hxH]; unfold atomicToHuman pow10; positivity
  have hyHpos : 0 < yH := by
    rw [hyH]; unfold atomicToHuman pow10; positivity
  have hdxHpos : 0 < dxH := by
    rw [hdxH]; unfold atomicToHuman pow10; positivity
  have hdxa : 0 < dxH - dxH * f := by nlinarith
  have hres : computeTotalCostTokenOut pool dxA (some (some f)) =
      { ok := true,
        totalCostTokenOutHuman := dxH * f * (yH / xH) +
          (if (dxH - dxH * f) * (yH / xH) - yH * (dxH - dxH * f) / (xH + (dxH - dxH * f)) < 0
           then 0 else (dxH - dxH * f) * (yH / xH) - yH * (dxH - dxH * f) / (xH + (dxH - dxH * f))),
        totalCostTokenOutAtomic := (⌊humanToAtomic (dxH * f * (yH / xH) +
          (if (dxH - dxH * f) * (yH / xH) - yH * (dxH - dxH * f) / (xH + (dxH - dxH * f)) < 0
           then 0 else (dxH - dxH * f) * (yH / xH) - yH * (dxH - dxH * f) / (xH + (dxH - dxH * f))))
          pool.quoteDecimals⌋ : ℚ),
        feeCostOutHuman := dxH * f * (yH / xH),
        slippageCostOutHuman :=
          (if (dxH - dxH * f) * (yH / xH) - yH * (dxH - dxH * f) / (xH + (dxH - dxH * f)) < 0
           then 0 else (dxH - dxH * f) * (yH / xH) - yH * (dxH - dxH * f) / (xH + (dxH - dxH * f))),
        midPriceC := yH / xH, feeRateC := f, feePaidHumanC := dxH * f } := by
    simp only [computeTotalCostTokenOut, Option.getD_some, normalizeFeeRate_of_unit f hf0 hf1.le,
      ← hxH, ← hyH, ← hdxH]
    rw [if_neg (not_not_intro ⟨hx, hy, hdx⟩), if_neg (not_not_intro hdxa),
      simulateCPMMHuman_pos xH yH dxH f hxHpos hyHpos hdxHpos hf0 hf1]
  rw [hres]
  have hslip : (if (dxH - dxH * f) * (yH / xH) - yH * (dxH - dxH * f) / (xH + (dxH - dxH * f)) < 0
      then (0:ℚ) else (dxH - dxH * f) * (yH / xH) - yH * (dxH - dxH * f) / (xH + (dxH - dxH * f))) =
      max 0 (dxH * (yH / xH) - dxH * f * (yH / xH) -
        yH * (dxH - dxH * f) / (xH + (dxH - dxH * f))) := by
    have harith : (dxH - dxH * f) * (yH / xH) - yH * (dxH - dxH * f) / (xH + (dxH - dxH * f)) =
        dxH * (yH / xH) - dxH * f * (yH / xH) - yH * (dxH - dxH * f) / (xH + (dxH - dxH * f)) := by
      ring
    rw [harith]
    rcases lt_or_le (dxH * (yH / xH) - dxH * f * (yH / xH) -
        yH * (dxH - dxH * f) / (xH + (dxH - dxH * f))) 0 with h | h
    · rw [if_pos h, max_eq_left h.le]
    · rw [if_neg (not_lt.mpr h), max_eq_right h]
  exact ⟨rfl, rfl, hslip, rfl⟩

/-- Witness for C4: pool with atomic reserves 10⁹/2·10⁹, 6/6 decimals, fee 0.003,
input 10⁶ atomic (the unit-test scenario of `processorNewEngine.test.js`). -/
theorem C4_analytical_cost_witness :
    (0:ℚ) < 1000000000 ∧ (0:ℚ) < 2000000000 ∧ (0:ℚ) < 1000000 ∧
    (0:ℚ) ≤ 3/1000 ∧ (3/1000:ℚ) < 1 ∧
    ((computeTotalCostTokenOut
        { type := "cpmm", xReserve := 1000000000, yReserve := 2000000000,
          baseDecimals := 6, quoteDecimals := 6, fee := some (3/1000) }
        1000000 (some (some (3/1000)))).ok = true) :=
  ⟨by norm_num, by norm_num, by norm_num, by norm_num, by norm_num,
   (C4_analytical_cost
      { type := "cpmm", xReserve := 1000000000, yReserve := 2000000000,
        baseDecimals := 6, quoteDecimals := 6, fee := some (3/1000) }
      1000000 (3/1000) (by norm_num) (by norm_num) (by norm_num)
      (by norm_num) (by norm_num)).1⟩

/-! ## processSwap behaviour for swallowed input and for CLMM pools -/
theorem detectType_whirlpool : detectType "whirlpool" = "clmm" := by decide
theorem detectType_cpmm : detectType "cpmm" = "cpmm" := by decide

/-- C10 (amended): when the fee rate as re-normalized by the kernel —
`processSwap` normalizes the raw fee once and `simulateCPMMHuman` normalizes the
result again — is 1 or larger (so the post-fee input is zero or negative),
`processSwap` does not raise an error: it returns `dy = 0`, `dy_atomic = 0`,
execution price 0 and price impact 0, with the fee charged on the whole input. -/
theorem C10_fee_swallows_input (pool : ProcPool) (dxA : ℚ) (optsFee : Option (Option ℚ))
    (hx : 0 < pool.xReserve) (hy : 0 < pool.yReserve) (hdx : 0 < dxA)
    (hfee : 1 ≤ normalizeFeeRate (some (normalizeFeeRate (optsFee.getD pool.fee)))) :
    ∃ r, processSwap pool dxA optsFee = .ok r ∧ r.dy = 0 ∧ r.dyAtomic = 0 ∧
      r.executionPrice = 0 ∧ r.priceImpactPct = 0 ∧
      r.feePaid = atomicToHuman dxA pool.baseDecimals *
        normalizeFeeRate (some (normalizeFeeRate (optsFee.getD pool.fee))) := by
  set fr := normalizeFeeRate (optsFee.getD pool.fee) with hfr
  set xH := atomicToHuman pool.xReserve pool.baseDecimals with hxH
  set yH := atomicToHuman pool.yReserve pool.quoteDecimals with hyH
  set dxH := atomicToHuman dxA pool.baseDecimals with hdxH
  have hxHpos : 0 < xH := by
    rw [hxH]; unfold atomicToHuman pow10; positivity
  have hyHpos : 0 < yH := by
    rw [hyH]; unfold atomicToHuman pow10; positivity
  have hdxHpos : 0 < dxH := by
    rw [hdxH]; unfold atomicToHuman pow10; positivity
  have hnot : ¬ (0 < dxH - dxH * normalizeFeeRate (some fr)) := by
    intro hcon; nlinarith
  have hsim : simulateCPMMHuman xH yH dxH (some fr) = .ok
      { dy := 0, midPrice := yH / xH, executionPrice := 0, executionPriceNoFee := 0,
        priceImpactPct := 0, feePaid := dxH * normalizeFeeRate (some fr) } := by
    simp only [simulateCPMMHuman]
    rw [if_neg (not_not_intro ⟨hxHpos, hyHpos, hdxHpos⟩), if_pos hnot]
  have hps : processSwap pool dxA optsFee = .ok
      { type := detectType pool.type, dxHuman := dxH, dy := 0, feeRate := fr,
        feePaid := dxH * normalizeFeeRate (some fr), midPrice := yH / xH,
        executionPrice := 0, executionPriceNoFee := 0, priceImpactPct := 0,
        dyAtomic := ⌊humanToAtomic (0:ℚ) pool.quoteDecimals⌋,
        dxAtomicOut := ⌊dxA⌋, baseDecimals := pool.baseDecimals,
        quoteDecimals := pool.quoteDecimals } := by
    simp only [processSwap, ← hfr, ← hxH, ← hyH, ← hdxH]
    rw [if_neg (not_not_intro ⟨hx, hy⟩), if_neg (not_not_intro hdx), hsim]
  refine ⟨_, hps, rfl, ?_, rfl, rfl, ?_⟩
  · show (⌊humanToAtomic (0:ℚ) pool.quoteDecimals⌋ : ℤ) = 0
    simp [humanToAtomic]
  · show dxH * normalizeFeeRate (some fr) = dxH * normalizeFeeRate (some fr)
    rfl

/-- Witness for C10 (amended) at raw fee 1, pool 1000/1000, input 10. -/
theorem C10_fee_swallows_input_witness :
    ((0:ℚ) < 1000) ∧ ((0:ℚ) < 10) ∧
    (1 ≤ normalizeFeeRate (some (normalizeFeeRate
      ((none : Option (Option ℚ)).getD (some 1))))) ∧
    (∃ r, processSwap
        { type := "cpmm", xReserve := 1000, yReserve := 1000,
          baseDecimals := 0, quoteDecimals := 0, fee := some 1 } 10 none = .ok r ∧
      r.dy = 0 ∧ r.dyAtomic = 0 ∧ r.executionPrice = 0 ∧ r.priceImpactPct = 0 ∧
      r.feePaid = atomicToHuman 10 0 *
        normalizeFeeRate (some (normalizeFeeRate
          ((none : Option (Option ℚ)).getD (some 1))))) :=
  ⟨by norm_num, by norm_num, by norm_num [normalizeFeeRate],
   C10_fee_swallows_input
     { type := "cpmm", xReserve := 1000, yReserve := 1000,
       baseDecimals := 0, quoteDecimals := 0, fee := some 1 } 10 none
     (by norm_num) (by norm_num) (by norm_num) (by norm_num [normalizeFeeRate])⟩

/-- Counterexample for C10 as stated: with raw fee 200 the normalized fee rate is
2 ≥ 1, yet `processSwap` does not return a zero output — the kernel re-normalizes
2 to 0.02 and produces a positive `dy` (49000/5049 ≈ 9.7, `dyAtomic` = 9). -/
theorem C10_counterexample :
    (1:ℚ) ≤ normalizeFeeRate (some 200) ∧
    processSwap { type := "cpmm", xReserve := 1000, yReserve := 1000,
                  baseDecimals := 0, quoteDecimals := 0, fee := some 200 } 10 none =
      .ok { type := "cpmm", dxHuman := 10, dy := 49000/5049, feeRate := 2, feePaid := 1/5,
            midPrice := 1, executionPrice := 4900/5049, executionPriceNoFee := 5000/5049,
            priceImpactPct := 4900/5049, dyAtomic := 9, dxAtomicOut := 10,
            baseDecimals := 0, quoteDecimals := 0 } ∧
    ((49000:ℚ)/5049 ≠ 0 ∧ (9:ℤ) ≠ 0) := by
  refine ⟨by norm_num [normalizeFeeRate], ?_, by norm_num, by norm_num⟩
  simp only [processSwap, simulateCPMMHuman, normalizeFeeRate, atomicToHuman,
    humanToAtomic, pow10, detectType_cpmm, Option.getD_none]
  norm_num [abs_of_nonneg]

/-- Counterexample for C9 as stated: a Whirlpool-typed pool with no quoter and an
input that dwarfs the reserves (dx = 500 × reserves, certainly crossing any tick
boundary) does not fail with any error: `processSwap` silently returns the CPMM
approximation `dy = 500000/501 ≈ 998`. -/
theorem C9_counterexample :
    processSwap { type := "whirlpool", xReserve := 1000, yReserve := 1000,
                  baseDecimals := 0, quoteDecimals := 0, fee := some 0 } 500000 none =
      .ok { type := "clmm", dxHuman := 500000, dy := 500000/501, feeRate := 0, feePaid := 0,
            midPrice := 1, executionPrice := 1/501, executionPriceNoFee := 1/501,
            priceImpactPct := 50000/501, dyAtomic := 998, dxAtomicOut := 500000,
            baseDecimals := 0, quoteDecimals := 0 } := by
  simp only [processSwap, simulateCPMMHuman, normalizeFeeRate, atomicToHuman,
    humanToAtomic, pow10, detectType_whirlpool, Option.getD_none]
  norm_num [abs_of_nonneg]

/-- C9 (amended): the repository has no `crossed_tick_boundary` flag and no
`SwapQuoter`; for every pool detected as Clmm/Whirlpool with positive reserves
and input, `processSwap` succeeds and its output is exactly the CPMM kernel run
on the aggregated reserves (the approximation announced in the source comment),
never a `NeedsQuoter` failure. -/
theorem C9_clmm_cpmm_approx (pool : ProcPool) (dxA : ℚ) (optsFee : Option (Option ℚ))
    (htype : detectType pool.type = "clmm")
    (hx : 0 < pool.xReserve) (hy : 0 < pool.yReserve) (hdx : 0 < dxA) :
    ∃ r, processSwap pool dxA optsFee = .ok r ∧ r.type = "clmm" ∧
      simulateCPMMHuman (atomicToHuman pool.xReserve pool.baseDecimals)
        (atomicToHuman pool.yReserve pool.quoteDecimals)
        (atomicToHuman dxA pool.baseDecimals)
        (some (normalizeFeeRate (optsFee.getD pool.fee))) =
        .ok { dy := r.dy, midPrice := r.midPrice, executionPrice := r.executionPrice,
              executionPriceNoFee := r.executionPriceNoFee,
              priceImpactPct := r.priceImpactPct, feePaid := r.feePaid } := by
  set xH := atomicToHuman pool.xReserve pool.baseDecimals with hxH
  set yH := atomicToHuman pool.yReserve pool.quoteDecimals with hyH
  set dxH := atomicToHuman dxA pool.baseDecimals with hdxH
  have hxHpos : 0 < xH := by
    rw [hxH]; unfold atomicToHuman pow10; positivity
  have hyHpos : 0 < yH := by
    rw [hyH]; unfold atomicToHuman pow10; positivity
  have hdxHpos : 0 < dxH := by
    rw [hdxH]; unfold atomicToHuman pow10; positivity
  obtain ⟨s, hs⟩ := simulateCPMMHuman_isOk xH yH dxH
    (some (normalizeFeeRate (optsFee.getD pool.fee))) hxHpos hyHpos hdxHpos
  have hps : processSwap pool dxA optsFee = .ok
      { type := detectType pool.type, dxHuman := dxH, dy := s.dy,
        feeRate := normalizeFeeRate (optsFee.getD pool.fee), feePaid := s.feePaid,
        midPrice := s.midPrice, executionPrice := s.executionPrice,
        executionPriceNoFee := s.executionPriceNoFee, priceImpactPct := s.priceImpactPct,
        dyAtomic := ⌊humanToAtomic s.dy pool.quoteDecimals⌋, dxAtomicOut := ⌊dxA⌋,
        baseDecimals := pool.baseDecimals, quoteDecimals := pool.quoteDecimals } := by
    simp only [processSwap, ← hxH, ← hyH, ← hdxH]
    rw [if_neg (not_not_intro ⟨hx, hy⟩), if_neg (not_not_intro hdx), hs]
  exact ⟨_, hps, htype, hs⟩

/-- Witness for C9 (amended) at the Whirlpool pool of the counterexample. -/
theorem C9_clmm_cpmm_approx_witness :
    detectType "whirlpool" = "clmm" ∧ ((0:ℚ) < 1000) ∧ ((0:ℚ) < 500000) ∧
    (∃ r, processSwap { type := "whirlpool", xReserve := 1000, yReserve := 1000,
                        baseDecimals := 0, quoteDecimals := 0, fee := some 0 } 500000 none = .ok r ∧
      r.type = "clmm" ∧
      simulateCPMMHuman (atomicToHuman 1000 0) (atomicToHuman 1000 0)
        (atomicToHuman 500000 0)
        (some (normalizeFeeRate ((none : Option (Option ℚ)).getD (some 0)))) =
        .ok { dy := r.dy, midPrice := r.midPrice, executionPrice := r.executionPrice,
              executionPriceNoFee := r.executionPriceNoFee,
              priceImpactPct := r.priceImpactPct, feePaid := r.feePaid }) :=
  ⟨detectType_whirlpool, by norm_num, by norm_num,
   C9_clmm_cpmm_approx
     { type := "whirlpool", xReserve := 1000, yReserve := 1000,
       baseDecimals := 0, quoteDecimals := 0, fee := some 0 } 500000 none
     detectType_whirlpool (by norm_num) (by norm_num) (by norm_num)⟩

/-! ## Fee normalization -/

/-- Counterexample for C6 as stated: 0.5 lies in [0.1, 100] but is kept as a
fraction (0.5, not 0.005); a Meteora `base_fee_percentage` of 20 as the only
source yields 0.2 (percent heuristic), not 20/10000 = 0.002 (basis points); and
with no fee source at all the fee is 0, not the claimed default 0.003. -/
theorem C6_counterexample :
    (normalizeFeeRate (some (1/2)) = 1/2 ∧ ¬ normalizeFeeRate (some (1/2)) = 1/200) ∧
    (normalizeFeeRate (normalizePoolFee none none (some (some 20)) none) = 1/5 ∧
      ¬ normalizeFeeRate (normalizePoolFee none none (some (some 20)) none) = 20/10000) ∧
    (normalizeFeeRate (normalizePoolFee none none none none) = 0 ∧
      ¬ normalizeFeeRate (normalizePoolFee none none none none) = 3/1000) := by
  refine ⟨⟨?_, ?_⟩, ⟨?_, ?_⟩, ⟨?_, ?_⟩⟩ <;>
    norm_num [normalizeFeeRate, normalizePoolFee]

/-- C6 (amended): `normalizeFeeRate` keeps any finite value in [0, 1] as a
fraction, divides a finite value above 1 by 100 (percent heuristic), and maps
negative or non-finite input to 0 (not to 0.003); `normalizePool` feeds a Meteora
`base_fee_percentage` through the same rule with no basis-point division, and an
absent fee defaults to 0.  The result is always nonnegative but not bounded
above: for a nonnegative input it lies in [0, 1] exactly when the input is at
most 100, while any input above 100 still yields a rate above 1 (300 gives 3). -/
theorem C6_fee_normalization :
    (∀ f : ℚ, 0 ≤ f → f ≤ 1 → normalizeFeeRate (some f) = f) ∧
    (∀ f : ℚ, 1 < f → normalizeFeeRate (some f) = f / 100) ∧
    (∀ f : ℚ, f < 0 → normalizeFeeRate (some f) = 0) ∧
    normalizeFeeRate none = 0 ∧
    (∀ v, 0 ≤ normalizeFeeRate v) ∧
    (∀ f : ℚ, 0 ≤ f → f ≤ 100 → normalizeFeeRate (some f) ≤ 1) ∧
    (∀ f : ℚ, 100 < f → 1 < normalizeFeeRate (some f)) ∧
    (∀ b : ℚ, 0 ≤ b → b ≤ 1 →
      normalizeFeeRate (normalizePoolFee none none (some (some b)) none) = b) ∧
    normalizeFeeRate (normalizePoolFee none none none none) = 0 := by
  refine ⟨normalizeFeeRate_of_unit, ?_, ?_, rfl, ?_, ?_, ?_, ?_, ?_⟩
  · intro f hf
    simp only [normalizeFeeRate]
    rw [if_neg (not_lt.mpr (by linarith)), if_pos hf]
  · intro f hf
    simp only [normalizeFeeRate]
    rw [if_pos hf]
  · intro v
    match v with
    | none => simp [normalizeFeeRate]
    | some f =>
      simp only [normalizeFeeRate]
      rcases lt_or_le f 0 with h | h
      · rw [if_pos h]
      · rw [if_neg (not_lt.mpr h)]
        rcases lt_or_le 1 f with h1 | h1
        · rw [if_pos h1]; positivity
        · rw [if_neg (not_lt.mpr h1)]; exact h
  · intro f hf0 hf100
    simp only [normalizeFeeRate]
    rw [if_neg (not_lt.mpr hf0)]
    rcases lt_or_le 1 f with h1 | h1
    · rw [if_pos h1]; linarith
    · rw [if_neg (not_lt.mpr h1)]; exact h1
  · intro f hf
    have h1 : (1:ℚ) < f := by linarith
    simp only [normalizeFeeRate]
    rw [if_neg (not_lt.mpr (by linarith)), if_pos h1]
    linarith
  · intro b hb0 hb1
    show normalizeFeeRate (some b) = b
    exact normalizeFeeRate_of_unit b hb0 hb1
  · rfl

/-- Witness for C6 (amended): 0.003 is kept, 20 becomes 0.2, −5 becomes 0, 50
stays at most 1, and 300 still normalizes above 1. -/
theorem C6_fee_normalization_witness :
    ((0:ℚ) ≤ 3/1000 ∧ (3/1000:ℚ) ≤ 1 ∧ normalizeFeeRate (some (3/1000)) = 3/1000) ∧
    ((1:ℚ) < 20 ∧ normalizeFeeRate (some 20) = 20 / 100) ∧
    ((-5:ℚ) < 0 ∧ normalizeFeeRate (some (-5)) = 0) ∧
    ((0:ℚ) ≤ 50 ∧ (50:ℚ) ≤ 100 ∧ normalizeFeeRate (some 50) ≤ 1) ∧
    ((100:ℚ) < 300 ∧ 1 < normalizeFeeRate (some 300)) :=
  ⟨⟨by norm_num, by norm_num,
    C6_fee_normalization.1 (3/1000) (by norm_num) (by norm_num)⟩,
   ⟨by norm_num, C6_fee_normalization.2.1 20 (by norm_num)⟩,
   ⟨by norm_num, C6_fee_normalization.2.2.1 (-5) (by norm_num)⟩,
   ⟨by norm_num, by norm_num,
    C6_fee_normalization.2.2.2.2.2.1 50 (by norm_num) (by norm_num)⟩,
   ⟨by norm_num, C6_fee_normalization.2.2.2.2.2.2.1 300 (by norm_num)⟩⟩

/-! ## Vault-versus-amount disambiguation (C2) -/
theorem not_whitespace_of_base58 (c : Char) (h : isBase58Char c = true) :
    jsWhitespaceChar c = false := by
  by_contra hws
  rw [Bool.not_eq_false] at hws
  have hc : c = ' ' ∨ c = '\t' ∨ c = '\n' ∨ c = '\r' := by
    simpa [jsWhitespaceChar] using hws
  rcases hc with rfl | rfl | rfl | rfl <;> exact absurd h (by decide)
theorem dropWhile_eq_self_of_none {α : Type} (p : α → Bool) (l : List α)
    (h : ∀ c ∈ l, p c = false) : l.dropWhile p = l := by
  cases l with
  | nil => rfl
  | cons a as =>
    rw [List.dropWhile_cons, h a (List.mem_cons_self a as)]
    simp
theorem mem_of_dropWhile_eq_cons {α : Type} (p : α → Bool) (l rest : List α) (c : α)
    (h : l.dropWhile p = c :: rest) : c ∈ l := by
  induction l with
  | nil => simp at h
  | cons a as ih =>
    rw [List.dropWhile_cons] at h
    by_cases hp : p a
    · rw [if_pos hp] at h
      exact List.mem_cons_of_mem a (ih h)
    · rw [if_neg hp] at h
      rw [(List.cons.injEq ..).mp h |>.1.symm] at *
      exact List.mem_cons_self a as
theorem jsTrim_eq_self (s : String) (h : ∀ c ∈ s.toList, jsWhitespaceChar c = false) :
    jsTrim s = s := by
  obtain ⟨l⟩ := s
  have hl : String.toList ⟨l⟩ = l := rfl
  rw [hl] at h
  show (⟨((l.dropWhile jsWhitespaceChar).reverse.dropWhile jsWhitespaceChar).reverse⟩ :
    String) = ⟨l⟩
  rw [dropWhile_eq_self_of_none jsWhitespaceChar l h,
    dropWhile_eq_self_of_none jsWhitespaceChar l.reverse
      (fun c hc => h c (List.mem_reverse.mp hc)),
    List.reverse_reverse]

/-- C2 (amended): a base58-shaped string of 32–44 characters is accepted as a
reserve amount by `isNumericAtomic` exactly when it consists solely of decimal
digits (digit characters of the base58 alphabet, e.g. a 32-character run of
`1`s); base58-shaped strings containing any letter are rejected, and a rejected
candidate is simply skipped — the normalizer stores no vault addresses
(`normalizePool` has no `vault_x_addr`/`vault_y_addr` fields). -/
theorem C2_base58_amount_iff (s : String) (h : isBase58Shaped s = true) :
    isNumericAtomic (.jstr s) = true ↔ s.toList.all (·.isDigit) = true := by
  have hparts : (32 ≤ s.toList.length ∧ s.toList.length ≤ 44) ∧
      s.toList.all isBase58Char = true := by
    simpa [isBase58Shaped, Bool.and_eq_true, decide_eq_true_eq] using h
  have hb : ∀ c ∈ s.toList, isBase58Char c = true :=
    fun c hc => List.all_eq_true.mp hparts.2 c hc
  have hws : ∀ c ∈ s.toList, jsWhitespaceChar c = false :=
    fun c hc => not_whitespace_of_base58 c (hb c hc)
  have htrim : jsTrim s = s := jsTrim_eq_self s hws
  have hne : s.toList ≠ [] := by
    intro hnil
    rw [hnil] at hparts
    simp at hparts
  constructor
  · intro hnum
    simp only [isNumericAtomic, htrim] at hnum
    rw [if_neg (by simp; exact hne)] at hnum
    by_cases hd : isDigitString s
    · simp only [isDigitString, htrim, Bool.and_eq_true] at hd
      exact hd.2
    · rw [if_neg hd] at hnum
      by_cases hdec : decShape s.toList
      · unfold decShape at hdec
        rw [List.span_eq_take_drop] at hdec
        rcases hdw : s.toList.dropWhile (·.isDigit) with _ | ⟨c, rest⟩
        · have htw : s.toList.takeWhile (·.isDigit) = s.toList := by
            conv_rhs => rw [← List.takeWhile_append_dropWhile
              (p := (·.isDigit)) (l := s.toList)]
            rw [hdw, List.append_nil]
          refine List.all_eq_true.mpr (fun c hc => ?_)
          exact List.mem_takeWhile_imp (htw ▸ hc)
        · rw [hdw] at hdec
          simp only [Bool.and_eq_true, decide_eq_true_eq] at hdec
          have hcdot : c = '.' := hdec.1.1.1
          have hmem : c ∈ s.toList := mem_of_dropWhile_eq_cons _ _ _ _ hdw
          rw [hcdot] at hmem
          exact absurd (hb '.' hmem) (by decide)
      · rw [if_neg hdec] at hnum
        exact absurd hnum (by simp)
  · intro hall
    have hd : isDigitString s = true := by
      simp only [isDigitString, htrim, Bool.and_eq_true]
      exact ⟨by simpa using hne, hall⟩
    simp only [isNumericAtomic, htrim]
    rw [if_neg (by simp; exact hne), if_pos hd]

/-- Counterexample for C2 as stated: the 32-character base58-shaped string
`"111…1"` IS accepted as a reserve amount — `isNumericAtomic` passes it and
`extractReserveAmountsXY` turns it into the astronomically large reserve
1.1·10³¹ (larger than 10³⁰), exactly the vault-as-amount failure mode the spec
says is excluded.  It is not stored as a vault address (the normalizer has no
vault fields). -/
theorem C2_counterexample :
    isBase58Shaped ones32 = true ∧
    isNumericAtomic (.jstr ones32) = true ∧
    (extractReserveAmountsXY { xReserve := .jstr ones32 } {}).1 =
      some (11111111111111111111111111111111 : ℚ) ∧
    (10:ℚ) ^ 30 < 11111111111111111111111111111111 := by
  refine ⟨by decide, by decide, ?_, by norm_num⟩
  have hfind : ([JsVal.jstr ones32, .jundef, .jundef, .jundef, .jundef, .jundef,
      .jundef].find? isNumericAtomic) = some (.jstr ones32) := by decide
  rw [show (extractReserveAmountsXY { xReserve := .jstr ones32 } {}).1 =
      (([JsVal.jstr ones32, .jundef, .jundef, .jundef, .jundef, .jundef,
        .jundef].find? isNumericAtomic).map floorAtomicVal) from rfl]
  rw [hfind]
  simp only [Option.map_some']
  congr 1

/-- Witness for C2 (amended) at the WSOL mint: 43 characters of base58, contains
letters, hence rejected as an amount. -/
theorem C2_base58_amount_iff_witness :
    isBase58Shaped WSOL_MINT = true ∧
    (isNumericAtomic (.jstr WSOL_MINT) = true ↔
      WSOL_MINT.toList.all (·.isDigit) = true) ∧
    isNumericAtomic (.jstr WSOL_MINT) = false :=
  ⟨by decide, C2_base58_amount_iff WSOL_MINT (by decide), by decide⟩

/-! ## Cycle-engine lemmas -/
theorem simulateLeg_dyAtomic (pool : NPool) (inputMint outputMint : String)
    (dxAtomic : ℚ) :
    (simulateLeg pool inputMint outputMint dxAtomic).map (·.dyAtomic) =
      propagateLeg pool inputMint outputMint dxAtomic := by
  unfold simulateLeg propagateLeg
  cases buildOrientedPoolForLeg pool inputMint outputMint with
  | none => rfl
  | some oriented =>
    by_cases hdx : ((⌊dxAtomic⌋ : ℚ)) ≤ 0
    · simp only [if_pos hdx, Option.map_none']
    · simp only [if_neg hdx]
      cases processSwap oriented.proc ((⌊dxAtomic⌋ : ℚ)) (some oriented.proc.fee) with
      | error e => rfl
      | ok sim => rfl
theorem evalTriple_some_spec (A C : String) (inputA : ℚ) (minP maxP maxL : ℚ)
    (B : String) (p1 p2 p3 : NPool) (r : CycleResult)
    (h : evalTriple A C inputA minP maxP maxL B p1 p2 p3 = some r) :
    ∃ leg1 leg2 leg3 : LegResult,
      simulateLeg p1 A B inputA = some leg1 ∧
      simulateLeg p2 B C (leg1.dyAtomic : ℚ) = some leg2 ∧
      simulateLeg p3 C A (leg2.dyAtomic : ℚ) = some leg3 ∧
      r.pools = [p1.poolAddress, p2.poolAddress, p3.poolAddress] ∧
      r.inputAtomic = inputA ∧
      r.outputAtomic = leg3.dyAtomic ∧
      r.profitAtomic = (leg3.dyAtomic : ℚ) - inputA ∧
      r.profitPct = ((leg3.dyAtomic : ℚ) - inputA) / inputA * 100 ∧
      ¬(maxP < r.profitPct) ∧ ¬(r.profitPct < 0 - maxL) ∧
      (r.passes = true ↔ minP ≤ r.netAfterCostsPct) ∧
      r.leg1 = ⟨p1.poolAddress, inputA, leg1.dyAtomic⟩ ∧
      r.leg2 = ⟨p2.poolAddress, (leg1.dyAtomic : ℚ), leg2.dyAtomic⟩ ∧
      r.leg3 = ⟨p3.poolAddress, (leg2.dyAtomic : ℚ), leg3.dyAtomic⟩ := by
  unfold evalTriple at h
  cases h1 : simulateLeg p1 A B inputA with
  | none => rw [h1] at h; exact absurd h (by simp)
  | some leg1 =>
    rw [h1, Option.some_bind] at h
    cases h2 : simulateLeg p2 B C (leg1.dyAtomic : ℚ) with
    | none => rw [h2] at h; exact absurd h (by simp)
    | some leg2 =>
      rw [h2, Option.some_bind] at h
      cases h3 : simulateLeg p3 C A (leg2.dyAtomic : ℚ) with
      | none => rw [h3] at h; exact absurd h (by simp)
      | some leg3 =>
        rw [h3, Option.some_bind] at h
        simp only at h
        by_cases hguard : maxP < ((leg3.dyAtomic : ℚ) - inputA) / inputA * 100 ∨
            ((leg3.dyAtomic : ℚ) - inputA) / inputA * 100 < 0 - maxL
        · rw [if_pos hguard] at h
          exact absurd h (by simp)
        · rw [if_neg hguard] at h
          push_neg at hguard
          refine ⟨leg1, leg2, leg3, rfl, h2, h3, ?_⟩
          rw [← Option.some_inj.mp h]
          exact ⟨rfl, rfl, rfl, rfl, rfl, not_lt.mpr hguard.1, not_lt.mpr hguard.2,
            by simp, rfl, rfl, rfl⟩
theorem mem_of_mem_getPairPools (pools : List NPool) (m1 m2 : String) (p : NPool)
    (h : p ∈ getPairPools pools m1 m2) : p ∈ pools := by
  unfold getPairPools at h
  rw [List.mem_flatMap] at h
  obtain ⟨q, hq, hpq⟩ := h
  rw [List.mem_append] at hpq
  rcases hpq with hpq | hpq <;> split_ifs at hpq <;> simp at hpq <;> exact hpq ▸ hq
theorem mem_enumerateCycles (pools : List NPool) (ps : TriParams) (r : CycleResult)
    (h : r ∈ enumerateCycles pools ps) :
    ∃ B p1 p2 p3, p1 ∈ filteredPools pools ps ∧ p2 ∈ filteredPools pools ps ∧
      p3 ∈ filteredPools pools ps ∧
      evalTriple ps.tokenA ps.tokenC ((⌊ps.inputAmountAtomic⌋ : ℚ)) ps.minProfitPct
        ps.maxProfitPct ps.maxLossPct B p1 p2 p3 = some r := by
  unfold enumerateCycles at h
  cases pools with
  | nil => simp at h
  | cons p0 rest =>
    rw [List.mem_flatMap] at h
    obtain ⟨B, hB, hr⟩ := h
    by_cases hempty : ((getPairPools (filteredPools (p0 :: rest) ps) ps.tokenA B).take
        ps.maxPoolsPerLeg).isEmpty = true ∨
      ((getPairPools (filteredPools (p0 :: rest) ps) B ps.tokenC).take
        ps.maxPoolsPerLeg).isEmpty = true ∨
      ((getPairPools (filteredPools (p0 :: rest) ps) ps.tokenC ps.tokenA).take
        ps.maxPoolsPerLeg).isEmpty = true
    · rw [if_pos hempty] at hr
      simp at hr
    · rw [if_neg hempty] at hr
      rw [List.mem_flatMap] at hr
      obtain ⟨pAB, hAB, hr⟩ := hr
      rw [List.mem_flatMap] at hr
      obtain ⟨pBC, hBC, hr⟩ := hr
      rw [List.mem_filterMap] at hr
      obtain ⟨pCA, hCA, heval⟩ := hr
      exact ⟨B, pAB, pBC, pCA,
        mem_of_mem_getPairPools _ _ _ _ (List.mem_of_mem_take hAB),
        mem_of_mem_getPairPools _ _ _ _ (List.mem_of_mem_take hBC),
        mem_of_mem_getPairPools _ _ _ _ (List.mem_of_mem_take hCA), heval⟩

/-- C3: in every simulated cycle, the atomic input of leg i+1 is exactly the
`dy_atomic` produced for leg i by the pure `processSwap` propagation (already
net of fee and slippage); the analytical cost is never subtracted from any
propagated amount — output and profit are the cost-free `propagateLeg` chain,
and costs only enter the `netAfterCosts` ranking metric. -/
theorem C3_propagation (A C : String) (inputA : ℚ) (minP maxP maxL : ℚ)
    (B : String) (p1 p2 p3 : NPool) (r : CycleResult)
    (h : evalTriple A C inputA minP maxP maxL B p1 p2 p3 = some r) :
    r.leg2.inputAtomicB = (r.leg1.outputAtomicB : ℚ) ∧
    r.leg3.inputAtomicB = (r.leg2.outputAtomicB : ℚ) ∧
    r.outputAtomic = r.leg3.outputAtomicB ∧
    propagateLeg p1 A B inputA = some r.leg1.outputAtomicB ∧
    propagateLeg p2 B C (r.leg1.outputAtomicB : ℚ) = some r.leg2.outputAtomicB ∧
    propagateLeg p3 C A (r.leg2.outputAtomicB : ℚ) = some r.leg3.outputAtomicB ∧
    r.profitAtomic = (r.outputAtomic : ℚ) - r.inputAtomic ∧
    r.profitPct = ((r.outputAtomic : ℚ) - r.inputAtomic) / r.inputAtomic * 100 := by
  obtain ⟨l1, l2, l3, h1, h2, h3, hpools, hin, hout, hpa, hpp, _, _, _, hl1, hl2, hl3⟩ :=
    evalTriple_some_spec A C inputA minP maxP maxL B p1 p2 p3 r h
  have hp1 : propagateLeg p1 A B inputA = some l1.dyAtomic := by
    rw [← simulateLeg_dyAtomic, h1]; rfl
  have hp2 : propagateLeg p2 B C (l1.dyAtomic : ℚ) = some l2.dyAtomic := by
    rw [← simulateLeg_dyAtomic, h2]; rfl
  have hp3 : propagateLeg p3 C A (l2.dyAtomic : ℚ) = some l3.dyAtomic := by
    rw [← simulateLeg_dyAtomic, h3]; rfl
  rw [hl1, hl2, hl3, hout, hin, hpa, hpp]
  exact ⟨rfl, rfl, rfl, hp1, hp2, hp3, rfl, rfl⟩

/-- C5: every cycle emitted by the search satisfies
`−max_loss_pct ≤ profit_pct ≤ max_profit_pct`, and its `passes` flag is true
exactly when `net_after_costs_pct ≥ threshold_pct` (`minProfitPct`, default
0.1; bound defaults 50 and −90). -/
theorem C5_safety_bounds (pools : List NPool) (ps : TriParams) (r : CycleResult)
    (h : r ∈ findTriangularArbitrage pools ps) :
    (0 - ps.maxLossPct ≤ r.profitPct ∧ r.profitPct ≤ ps.maxProfitPct) ∧
    (r.passes = true ↔ ps.minProfitPct ≤ r.netAfterCostsPct) := by
  have hmem : r ∈ enumerateCycles pools ps := ((jsSortBy_perm _ _).mem_iff).mp h
  obtain ⟨B, p1, p2, p3, _, _, _, heval⟩ := mem_enumerateCycles pools ps r hmem
  obtain ⟨l1, l2, l3, _, _, _, _, _, _, _, _, hng, hnl, hpass, _, _, _⟩ :=
    evalTriple_some_spec _ _ _ _ _ _ _ _ _ _ _ heval
  exact ⟨⟨not_lt.mp hnl, not_lt.mp hng⟩, hpass⟩
theorem impliedPriceYperX_eq_spec (p : NPool) (pr : ℚ)
    (h : impliedPriceYperX p = some pr) :
    pr = p.yReserveAtomic * 10 ^ p.xDecimals / (p.xReserveAtomic * 10 ^ p.yDecimals) ∧
    0 < p.xReserveAtomic ∧ 0 < p.yReserveAtomic := by
  unfold impliedPriceYperX at h
  by_cases hc : p.xReserveAtomic / 10 ^ p.xDecimals ≤ 0 ∨
      p.yReserveAtomic / 10 ^ p.yDecimals ≤ 0
  · rw [if_pos hc] at h; exact absurd h (by simp)
  · rw [if_neg hc] at h
    push_neg at hc
    have hx : 0 < p.xReserveAtomic := by
      have h10 : (0:ℚ) < 10 ^ p.xDecimals := by positivity
      rcases div_pos_iff.mp hc.1 with ⟨ha, _⟩ | ⟨_, hb⟩
      · exact ha
      · linarith
    have hy : 0 < p.yReserveAtomic := by
      have h10 : (0:ℚ) < 10 ^ p.yDecimals := by positivity
      rcases div_pos_iff.mp hc.2 with ⟨ha, _⟩ | ⟨_, hb⟩
      · exact ha
      · linarith
    refine ⟨?_, hx, hy⟩
    rw [← Option.some_inj.mp h]
    have h10x : (10:ℚ) ^ p.xDecimals ≠ 0 := by positivity
    have h10y : (10:ℚ) ^ p.yDecimals ≠ 0 := by positivity
    field_simp
    ring
theorem not_mispriced_bounds (p : NPool) (m : ℚ)
    (h : isSolUsdcPoolMispriced p (some m) 2 = false)
    (hpair : isSolUsdcPair p) :
    0 < impliedUsdcPerSolSpec p ∧ m / 2 ≤ impliedUsdcPerSolSpec p ∧
      impliedUsdcPerSolSpec p ≤ m * 2 := by
  have h2 : (if ¬ isSolUsdcPair p then false
      else
        match impliedPriceYperX p with
        | none => true
        | some pr =>
          let usdcPerSol := if p.mintX = WSOL_MINT then pr else 1 / pr
          if ¬(0 < usdcPerSol) then true
          else decide (usdcPerSol < m / 2 ∨ m * 2 < usdcPerSol)) = false := h
  clear h
  rw [if_neg (not_not_intro hpair)] at h2
  rename' h2 => h
  cases himp : impliedPriceYperX p with
  | none => rw [himp] at h; exact absurd h (by simp)
  | some pr =>
    rw [himp] at h
    obtain ⟨hpr, hx, hy⟩ := impliedPriceYperX_eq_spec p pr himp
    have h3 : (if ¬(0 < (if p.mintX = WSOL_MINT then pr else 1 / pr)) then true
        else decide ((if p.mintX = WSOL_MINT then pr else 1 / pr) < m / 2 ∨
          m * 2 < (if p.mintX = WSOL_MINT then pr else 1 / pr))) = false := h
    clear h
    have hspec : impliedUsdcPerSolSpec p =
        (if p.mintX = WSOL_MINT then pr else 1 / pr) := by
      unfold impliedUsdcPerSolSpec
      rw [← hpr]
    by_cases hpos : 0 < (if p.mintX = WSOL_MINT then pr else 1 / pr)
    · rw [if_neg (not_not_intro hpos)] at h3
      have hb : ¬((if p.mintX = WSOL_MINT then pr else 1 / pr) < m / 2 ∨
          m * 2 < (if p.mintX = WSOL_MINT then pr else 1 / pr)) := by
        simpa using h3
      push_neg at hb
      rw [hspec]
      exact ⟨hpos, hb.1, hb.2⟩
    · rw [if_pos hpos] at h3
      exact absurd h3 (by simp)
theorem mem_filteredPools_not_mispriced (pools : List NPool) (ps : TriParams)
    (p : NPool) (m : ℚ)
    (hflag : ps.filterMispricedSolUsdc = true)
    (hmed : computeSolUsdcMedianPrice (eligiblePools pools ps) = some m)
    (hp : p ∈ filteredPools pools ps) :
    isSolUsdcPoolMispriced p (some m) 2 = false := by
  simp only [filteredPools] at hp
  rw [hmed, hflag] at hp
  rw [if_pos (by simp)] at hp
  have := List.mem_filter.mp hp
  simpa using this.2

/-- C7: when a median implied WSOL/USDC price exists over the eligible pools
(and the mispricing filter is on, its default), every emitted cycle uses only
pools whose implied price — `y_reserve·10^decimals_x / (x_reserve·10^decimals_y)`
oriented to USDC per SOL — lies inside `[median/2, median·2]` whenever the pool
is a WSOL/USDC pair (default factor F = 2). -/
theorem C7_median_filter (pools : List NPool) (ps : TriParams) (r : CycleResult) (m : ℚ)
    (hflag : ps.filterMispricedSolUsdc = true)
    (hmed : computeSolUsdcMedianPrice (eligiblePools pools ps) = some m)
    (hr : r ∈ findTriangularArbitrage pools ps) :
    ∃ p1 p2 p3 : NPool,
      r.pools = [p1.poolAddress, p2.poolAddress, p3.poolAddress] ∧
      ∀ p ∈ [p1, p2, p3], isSolUsdcPair p →
        0 < impliedUsdcPerSolSpec p ∧ m / 2 ≤ impliedUsdcPerSolSpec p ∧
          impliedUsdcPerSolSpec p ≤ m * 2 := by
  have hmem : r ∈ enumerateCycles pools ps := ((jsSortBy_perm _ _).mem_iff).mp hr
  obtain ⟨B, p1, p2, p3, hm1, hm2, hm3, heval⟩ := mem_enumerateCycles pools ps r hmem
  obtain ⟨l1, l2, l3, _, _, _, hpools, _⟩ :=
    evalTriple_some_spec _ _ _ _ _ _ _ _ _ _ _ heval
  refine ⟨p1, p2, p3, hpools, ?_⟩
  intro p hp hpair
  have hpf : p ∈ filteredPools pools ps := by
    rcases List.mem_cons.mp hp with rfl | hp
    · exact hm1
    rcases List.mem_cons.mp hp with rfl | hp
    · exact hm2
    rcases List.mem_cons.mp hp with rfl | hp
    · exact hm3
    · simp at hp
  exact not_mispriced_bounds p m
    (mem_filteredPools_not_mispriced pools ps p m hflag hmed hpf) hpair

/-- C8 (amended): the returned list is the cycle enumeration sorted by
`net_after_costs_pct` descending; the sort is stable, so ties keep enumeration
order (they are NOT re-ordered by pool id), and the whole list is returned —
there is no `max_routes` cap. -/
theorem C8_ranking (pools : List NPool) (ps : TriParams) :
    (findTriangularArbitrage pools ps).Pairwise
      (fun a b => b.netAfterCostsPct ≤ a.netAfterCostsPct) ∧
    (findTriangularArbitrage pools ps).Perm (enumerateCycles pools ps) ∧
    (findTriangularArbitrage pools ps).length = (enumerateCycles pools ps).length ∧
    ∀ c : ℚ, (findTriangularArbitrage pools ps).filter
        (fun r => decide (r.netAfterCostsPct = c)) =
      (enumerateCycles pools ps).filter (fun r => decide (r.netAfterCostsPct = c)) := by
  refine ⟨?_, jsSortBy_perm _ _, (jsSortBy_perm _ _).length_eq, ?_⟩
  · have := jsSortBy_pairwise
      (fun a b : CycleResult => decide (b.netAfterCostsPct ≤ a.netAfterCostsPct))
      (fun a b => by simpa using le_total b.netAfterCostsPct a.netAfterCostsPct)
      (fun a b c h1 h2 => by
        simp only [decide_eq_true_eq] at h1 h2 ⊢
        exact h2.trans h1)
      (enumerateCycles pools ps)
    exact this.imp (fun hab => by simpa using hab)
  · intro c
    exact jsSortBy_stable (fun r : CycleResult => r.netAfterCostsPct) c
      (enumerateCycles pools ps)

/-! ## Concrete three-pool scenarios -/
theorem evalTriple_wP :
    evalTriple "Am" "Cm" 10 (1/10) 50 90 "Bm" wP1 wP2 wP3 = some wCycle := by
  norm_num [evalTriple, simulateLeg, buildOrientedPoolForLeg, processSwap,
    simulateCPMMHuman, computeTotalCostTokenOut, normalizeFeeRate, atomicToHuman,
    humanToAtomic, pow10, detectType, jsToLower, strHasSub, listHasInf, listIsPrefOf,
    tokenDecimalsByMint, wP1, wP2, wP3, wCycle, WSOL_MINT, USDC_MINT, Option.some_bind]

/-- Witness for C3 on the concrete cycle `wP1`/`wP2`/`wP3`. -/
theorem C3_propagation_witness :
    evalTriple "Am" "Cm" 10 (1/10) 50 90 "Bm" wP1 wP2 wP3 = some wCycle ∧
    (wCycle.leg2.inputAtomicB = (wCycle.leg1.outputAtomicB : ℚ) ∧
     wCycle.leg3.inputAtomicB = (wCycle.leg2.outputAtomicB : ℚ) ∧
     wCycle.outputAtomic = wCycle.leg3.outputAtomicB ∧
     propagateLeg wP1 "Am" "Bm" 10 = some wCycle.leg1.outputAtomicB ∧
     propagateLeg wP2 "Bm" "Cm" (wCycle.leg1.outputAtomicB : ℚ) =
       some wCycle.leg2.outputAtomicB ∧
     propagateLeg wP3 "Cm" "Am" (wCycle.leg2.outputAtomicB : ℚ) =
       some wCycle.leg3.outputAtomicB ∧
     wCycle.profitAtomic = (wCycle.outputAtomic : ℚ) - wCycle.inputAtomic ∧
     wCycle.profitPct =
       ((wCycle.outputAtomic : ℚ) - wCycle.inputAtomic) / wCycle.inputAtomic * 100) :=
  ⟨evalTriple_wP,
   C3_propagation "Am" "Cm" 10 (1/10) 50 90 "Bm" wP1 wP2 wP3 wCycle evalTriple_wP⟩
theorem filteredPools_wP : filteredPools [wP1, wP2, wP3] wps = [wP1, wP2, wP3] := by
  decide
theorem candidateBs_wP :
    candidateBs [wP1, wP2, wP3] "Am" "Cm" = ["Bm"] := by
  decide
theorem getPairPools_wP_AB : getPairPools [wP1, wP2, wP3] "Am" "Bm" = [wP1] := by
  decide
theorem getPairPools_wP_BC : getPairPools [wP1, wP2, wP3] "Bm" "Cm" = [wP2] := by
  decide
theorem getPairPools_wP_CA : getPairPools [wP1, wP2, wP3] "Cm" "Am" = [wP3] := by
  decide
theorem enumerateCycles_wP : enumerateCycles [wP1, wP2, wP3] wps = [wCycle] := by
  rw [show enumerateCycles [wP1, wP2, wP3] wps =
      (candidateBs (filteredPools [wP1, wP2, wP3] wps) wps.tokenA wps.tokenC).flatMap
        (fun B =>
          let poolsAB := (getPairPools (filteredPools [wP1, wP2, wP3] wps)
            wps.tokenA B).take wps.maxPoolsPerLeg
          let poolsBC := (getPairPools (filteredPools [wP1, wP2, wP3] wps)
            B wps.tokenC).take wps.maxPoolsPerLeg
          let poolsCA := (getPairPools (filteredPools [wP1, wP2, wP3] wps)
            wps.tokenC wps.tokenA).take wps.maxPoolsPerLeg
          if poolsAB.isEmpty ∨ poolsBC.isEmpty ∨ poolsCA.isEmpty then []
          else
            poolsAB.flatMap (fun pAB => poolsBC.flatMap (fun pBC =>
              poolsCA.filterMap (fun pCA =>
                evalTriple wps.tokenA wps.tokenC ((⌊wps.inputAmountAtomic⌋ : ℚ))
                  wps.minProfitPct wps.maxProfitPct wps.maxLossPct B pAB pBC pCA))))
      from rfl]
  rw [filteredPools_wP]
  rw [show wps.tokenA = "Am" from rfl, show wps.tokenC = "Cm" from rfl,
    show wps.maxPoolsPerLeg = 6 from rfl,
    show wps.minProfitPct = 1/10 from rfl, show wps.maxProfitPct = 50 from rfl,
    show wps.maxLossPct = 90 from rfl,
    show ((⌊wps.inputAmountAtomic⌋ : ℚ)) = 10 by norm_num [wps]]
  rw [candidateBs_wP]
  simp only [List.flatMap_cons, List.flatMap_nil, List.append_nil]
  rw [getPairPools_wP_AB, getPairPools_wP_BC, getPairPools_wP_CA]
  simp only [List.take, List.isEmpty_cons, List.flatMap_cons, List.flatMap_nil,
    List.append_nil]
  rw [if_neg (by simp)]
  simp only [List.filterMap_cons, List.filterMap_nil, ← one_div, evalTriple_wP,
    List.append_nil]
theorem findTriangularArbitrage_wP :
    findTriangularArbitrage [wP1, wP2, wP3] wps = [wCycle] := by
  rw [findTriangularArbitrage, enumerateCycles_wP]
  rfl

/-- Witness for C5 on the concrete search over `wP1`/`wP2`/`wP3`. -/
theorem C5_safety_bounds_witness :
    wCycle ∈ findTriangularArbitrage [wP1, wP2, wP3] wps ∧
    ((0 - wps.maxLossPct ≤ wCycle.profitPct ∧ wCycle.profitPct ≤ wps.maxProfitPct) ∧
     (wCycle.passes = true ↔ wps.minProfitPct ≤ wCycle.netAfterCostsPct)) :=
  ⟨by rw [findTriangularArbitrage_wP]; exact List.mem_singleton.mpr rfl,
   C5_safety_bounds [wP1, wP2, wP3] wps wCycle
     (by rw [findTriangularArbitrage_wP]; exact List.mem_singleton.mpr rfl)⟩
theorem eligiblePools_q : eligiblePools [q1, q2, q3] wps7 = [q1, q2, q3] := by
  decide
theorem median_q : computeSolUsdcMedianPrice [q1, q2, q3] = some 1 := by
  have h1 : ¬ isSolUsdcPair q1 := by decide
  have h2 : ¬ isSolUsdcPair q2 := by decide
  have h3 : isSolUsdcPair q3 := by decide
  have h4 : (q3.mintX = WSOL_MINT) = False := by decide
  have hip : impliedPriceYperX q3 = some 1 := by
    norm_num [impliedPriceYperX, q3]
  norm_num [computeSolUsdcMedianPrice, median, jsSortBy, sInsert,
    List.filterMap_cons, List.filterMap_nil, h1, h2, h3, h4, hip]
theorem filteredPools_q : filteredPools [q1, q2, q3] wps7 = [q1, q2, q3] := by
  simp only [filteredPools]
  rw [eligiblePools_q, median_q]
  rw [if_pos (by simp [wps7])]
  norm_num [isSolUsdcPoolMispriced, impliedPriceYperX, isSolUsdcPair, q1, q2, q3,
    WSOL_MINT, USDC_MINT]
theorem candidateBs_q : candidateBs [q1, q2, q3] WSOL_MINT USDC_MINT = ["Bw"] := by
  decide
theorem getPairPools_q_AB : getPairPools [q1, q2, q3] WSOL_MINT "Bw" = [q1] := by
  decide
theorem getPairPools_q_BC : getPairPools [q1, q2, q3] "Bw" USDC_MINT = [q2] := by
  decide
theorem getPairPools_q_CA : getPairPools [q1, q2, q3] USDC_MINT WSOL_MINT = [q3] := by
  decide
theorem evalTriple_q :
    evalTriple WSOL_MINT USDC_MINT 10 (1/10) 50 90 "Bw" q1 q2 q3 = some wCycle7 := by
  norm_num [evalTriple, simulateLeg, buildOrientedPoolForLeg, processSwap,
    simulateCPMMHuman, computeTotalCostTokenOut, normalizeFeeRate, atomicToHuman,
    humanToAtomic, pow10, detectType, jsToLower, strHasSub, listHasInf, listIsPrefOf,
    tokenDecimalsByMint, q1, q2, q3, wCycle7, WSOL_MINT, USDC_MINT, Option.some_bind]
theorem enumerateCycles_q : enumerateCycles [q1, q2, q3] wps7 = [wCycle7] := by
  rw [show enumerateCycles [q1, q2, q3] wps7 =
      (candidateBs (filteredPools [q1, q2, q3] wps7) wps7.tokenA wps7.tokenC).flatMap
        (fun B =>
          let poolsAB := (getPairPools (filteredPools [q1, q2, q3] wps7)
            wps7.tokenA B).take wps7.maxPoolsPerLeg
          let poolsBC := (getPairPools (filteredPools [q1, q2, q3] wps7)
            B wps7.tokenC).take wps7.maxPoolsPerLeg
          let poolsCA := (getPairPools (filteredPools [q1, q2, q3] wps7)
            wps7.tokenC wps7.tokenA).take wps7.maxPoolsPerLeg
          if poolsAB.isEmpty ∨ poolsBC.isEmpty ∨ poolsCA.isEmpty then []
          else
            poolsAB.flatMap (fun pAB => poolsBC.flatMap (fun pBC =>
              poolsCA.filterMap (fun pCA =>
                evalTriple wps7.tokenA wps7.tokenC ((⌊wps7.inputAmountAtomic⌋ : ℚ))
                  wps7.minProfitPct wps7.maxProfitPct wps7.maxLossPct B pAB pBC pCA))))
      from rfl]
  rw [filteredPools_q]
  rw [show wps7.tokenA = WSOL_MINT from rfl, show wps7.tokenC = USDC_MINT from rfl,
    show wps7.maxPoolsPerLeg = 6 from rfl,
    show wps7.minProfitPct = 1/10 from rfl, show wps7.maxProfitPct = 50 from rfl,
    show wps7.maxLossPct = 90 from rfl,
    show ((⌊wps7.inputAmountAtomic⌋ : ℚ)) = 10 by norm_num [wps7]]
  rw [candidateBs_q]
  simp only [List.flatMap_cons, List.flatMap_nil, List.append_nil]
  rw [getPairPools_q_AB, getPairPools_q_BC, getPairPools_q_CA]
  simp only [List.take, List.isEmpty_cons, List.flatMap_cons, List.flatMap_nil,
    List.append_nil]
  rw [if_neg (by simp)]
  simp only [List.filterMap_cons, List.filterMap_nil, ← one_div, evalTriple_q,
    List.append_nil]
theorem findTriangularArbitrage_q :
    findTriangularArbitrage [q1, q2, q3] wps7 = [wCycle7] := by
  rw [findTriangularArbitrage, enumerateCycles_q]
  rfl

/-- Witness for C7 on the anchored scenario: median 1, the WSOL/USDC pool `q3`
has implied price 1 inside [1/2, 2]. -/
theorem C7_median_filter_witness :
    wps7.filterMispricedSolUsdc = true ∧
    computeSolUsdcMedianPrice (eligiblePools [q1, q2, q3] wps7) = some 1 ∧
    wCycle7 ∈ findTriangularArbitrage [q1, q2, q3] wps7 ∧
    (∃ p1 p2 p3 : NPool,
      wCycle7.pools = [p1.poolAddress, p2.poolAddress, p3.poolAddress] ∧
      ∀ p ∈ [p1, p2, p3], isSolUsdcPair p →
        0 < impliedUsdcPerSolSpec p ∧ (1:ℚ) / 2 ≤ impliedUsdcPerSolSpec p ∧
          impliedUsdcPerSolSpec p ≤ 1 * 2) :=
  ⟨rfl, by rw [eligiblePools_q]; exact median_q,
   by rw [findTriangularArbitrage_q]; exact List.mem_singleton.mpr rfl,
   C7_median_filter [q1, q2, q3] wps7 wCycle7 1 rfl
     (by rw [eligiblePools_q]; exact median_q)
     (by rw [findTriangularArbitrage_q]; exact List.mem_singleton.mpr rfl)⟩
theorem filteredPools_c8 :
    filteredPools [zP, aP, wP2, wP3] wps = [zP, aP, wP2, wP3] := by
  decide
theorem candidateBs_c8 : candidateBs [zP, aP, wP2, wP3] "Am" "Cm" = ["Bm"] := by
  decide
theorem getPairPools_c8_AB : getPairPools [zP, aP, wP2, wP3] "Am" "Bm" = [zP, aP] := by
  decide
theorem getPairPools_c8_BC : getPairPools [zP, aP, wP2, wP3] "Bm" "Cm" = [wP2] := by
  decide
theorem getPairPools_c8_CA : getPairPools [zP, aP, wP2, wP3] "Cm" "Am" = [wP3] := by
  decide
theorem evalTriple_zP :
    evalTriple "Am" "Cm" 10 (1/10) 50 90 "Bm" zP wP2 wP3 = some zCycle := by
  norm_num [evalTriple, simulateLeg, buildOrientedPoolForLeg, processSwap,
    simulateCPMMHuman, computeTotalCostTokenOut, normalizeFeeRate, atomicToHuman,
    humanToAtomic, pow10, detectType, jsToLower, strHasSub, listHasInf, listIsPrefOf,
    tokenDecimalsByMint, zP, wP2, wP3, zCycle, WSOL_MINT, USDC_MINT, Option.some_bind]
theorem evalTriple_aP :
    evalTriple "Am" "Cm" 10 (1/10) 50 90 "Bm" aP wP2 wP3 = some aCycle := by
  norm_num [evalTriple, simulateLeg, buildOrientedPoolForLeg, processSwap,
    simulateCPMMHuman, computeTotalCostTokenOut, normalizeFeeRate, atomicToHuman,
    humanToAtomic, pow10, detectType, jsToLower, strHasSub, listHasInf, listIsPrefOf,
    tokenDecimalsByMint, aP, wP2, wP3, aCycle, WSOL_MINT, USDC_MINT, Option.some_bind]
theorem enumerateCycles_c8 :
    enumerateCycles [zP, aP, wP2, wP3] wps = [zCycle, aCycle] := by
  rw [show enumerateCycles [zP, aP, wP2, wP3] wps =
      (candidateBs (filteredPools [zP, aP, wP2, wP3] wps) wps.tokenA wps.tokenC).flatMap
        (fun B =>
          let poolsAB := (getPairPools (filteredPools [zP, aP, wP2, wP3] wps)
            wps.tokenA B).take wps.maxPoolsPerLeg
          let poolsBC := (getPairPools (filteredPools [zP, aP, wP2, wP3] wps)
            B wps.tokenC).take wps.maxPoolsPerLeg
          let poolsCA := (getPairPools (filteredPools [zP, aP, wP2, wP3] wps)
            wps.tokenC wps.tokenA).take wps.maxPoolsPerLeg
          if poolsAB.isEmpty ∨ poolsBC.isEmpty ∨ poolsCA.isEmpty then []
          else
            poolsAB.flatMap (fun pAB => poolsBC.flatMap (fun pBC =>
              poolsCA.filterMap (fun pCA =>
                evalTriple wps.tokenA wps.tokenC ((⌊wps.inputAmountAtomic⌋ : ℚ))
                  wps.minProfitPct wps.maxProfitPct wps.maxLossPct B pAB pBC pCA))))
      from rfl]
  rw [filteredPools_c8]
  rw [show wps.tokenA = "Am" from rfl, show wps.tokenC = "Cm" from rfl,
    show wps.maxPoolsPerLeg = 6 from rfl,
    show wps.minProfitPct = 1/10 from rfl, show wps.maxProfitPct = 50 from rfl,
    show wps.maxLossPct = 90 from rfl,
    show ((⌊wps.inputAmountAtomic⌋ : ℚ)) = 10 by norm_num [wps]]
  rw [candidateBs_c8]
  simp only [List.flatMap_cons, List.flatMap_nil, List.append_nil]
  rw [getPairPools_c8_AB, getPairPools_c8_BC, getPairPools_c8_CA]
  simp only [List.take, List.isEmpty_cons, List.flatMap_cons, List.flatMap_nil,
    List.append_nil]
  rw [if_neg (by simp)]
  simp only [List.filterMap_cons, List.filterMap_nil, ← one_div, evalTriple_zP,
    evalTriple_aP, List.append_nil]
  rfl
theorem findTriangularArbitrage_c8 :
    findTriangularArbitrage [zP, aP, wP2, wP3] wps = [zCycle, aCycle] := by
  rw [findTriangularArbitrage, enumerateCycles_c8]
  rw [show jsSortBy
      (fun a b : CycleResult => decide (b.netAfterCostsPct ≤ a.netAfterCostsPct))
      [zCycle, aCycle] =
    sInsert (fun a b : CycleResult => decide (b.netAfterCostsPct ≤ a.netAfterCostsPct))
      aCycle [zCycle] from rfl]
  unfold sInsert
  rw [if_pos (by norm_num [zCycle, aCycle])]
  rfl

/-- Counterexample for C8 as stated: two cycles tie on `net_after_costs_pct`
(−30 each) but are returned in enumeration order `Zp…` before `Ap…`, even though
the concatenated pool ids order lexicographically as `ApP2P3 < ZpP2P3`; the
claimed pool-id tie-break does not exist (and the source line `return results`
applies no `max_routes` cap). -/
theorem C8_counterexample :
    (findTriangularArbitrage [zP, aP, wP2, wP3] wps).map (fun r => r.pools) =
      [["Zp", "P2", "P3"], ["Ap", "P2", "P3"]] ∧
    (findTriangularArbitrage [zP, aP, wP2, wP3] wps).map (fun r => r.netAfterCostsPct) =
      [-30, -30] ∧
    "ApP2P3" < "ZpP2P3" := by
  rw [findTriangularArbitrage_c8]
  exact ⟨rfl, rfl, by simp; decide⟩
